import Mathlib

/-!  Verification of the voxel terrain pipeline of the craft repository.

Definitions are translated from src/renderer/block.rs, src/chunk.rs and
src/noise.rs.  Numeric conventions of the embedding:

* f32 / f64 values are modelled as exact rationals; all arithmetic the
  theorems depend on is exact in the source's value ranges.
* usize is modelled as Nat, isize as Int.
* u32 index arithmetic is Nat arithmetic reduced modulo 2^32 at the points
  where the source casts a length to u32 or adds u32 values.
* The Rust cast from f32 to usize truncates toward zero and clamps
  negative values to 0; for rationals this is Int.toNat of the floor.
* The external Perlin sampler from the noise crate (Perlin::new(seed)
  followed by .get) is a pure function of the seed and the sample point;
  it is passed as an explicit function parameter.
* Rust panics (HashMap lookup followed by unwrap) are modelled with
  Option: a panicking execution returns none.
* Rust HashMap is modelled by its abstract map semantics
  (a function from keys to Option values) together with pointwise insert.
-/

namespace Craft

set_option maxRecDepth 8000

/-- Block kinds, from enum BlockType in src/renderer/block.rs. -/
inductive BlockType
  | Dirt
  | Grass
  | Stone
  | Air
deriving DecidableEq

/-- Face directions, from enum Face in src/renderer/block.rs. -/
inductive Face
  | Top
  | Bottom
  | Left
  | Right
  | Front
  | Back
deriving DecidableEq

/-- A mesh vertex: position and texture coordinates (struct BlockVertex). -/
structure BlockVertex where
  position : ℚ × ℚ × ℚ
  tex_coords : ℚ × ℚ
deriving DecidableEq

/-- Componentwise addition of two 3-vectors (fn combine in block.rs). -/
def combine (a b : ℚ × ℚ × ℚ) : ℚ × ℚ × ℚ :=
  (a.1 + b.1, a.2.1 + b.2.1, a.2.2 + b.2.2)

/-- Four texture corners, in the order they are handed to a quad. -/
abbrev TexCoords4 := (ℚ × ℚ) × (ℚ × ℚ) × (ℚ × ℚ) × (ℚ × ℚ)

def ATLAS_SIZE : ℚ := 256

def BLOCK_SIZE : ℚ := 16

/-- Atlas lookup for a block type and face (BlockType::tex_coords).
The two match expressions mirror the source; rotate_right(2) turns
(c0,c1,c2,c3) into (c2,c3,c0,c1) and rotate_right(1) into (c3,c0,c1,c2). -/
def BlockType.tex_coords (t : BlockType) (face : Face) : TexCoords4 :=
  let xy : Nat × Nat :=
    match t, face with
    | BlockType.Grass, Face.Top => (0, 0)
    | BlockType.Grass, Face.Bottom => (2, 0)
    | BlockType.Grass, _ => (3, 0)
    | BlockType.Dirt, _ => (2, 0)
    | BlockType.Stone, _ => (1, 0)
    | BlockType.Air, _ => (3, 0)
  let u_min : ℚ := (xy.1 : ℚ) * BLOCK_SIZE / ATLAS_SIZE
  let v_min : ℚ := (xy.2 : ℚ) * BLOCK_SIZE / ATLAS_SIZE
  let u_max : ℚ := u_min + BLOCK_SIZE / ATLAS_SIZE
  let v_max : ℚ := v_min + BLOCK_SIZE / ATLAS_SIZE
  let uv0 : ℚ × ℚ := (u_min, v_min)
  let uv1 : ℚ × ℚ := (u_max, v_min)
  let uv2 : ℚ × ℚ := (u_max, v_max)
  let uv3 : ℚ × ℚ := (u_min, v_max)
  match face with
  | Face.Front | Face.Back => (uv2, uv3, uv0, uv1)
  | Face.Left | Face.Right => (uv3, uv0, uv1, uv2)
  | _ => (uv0, uv1, uv2, uv3)

/-- A quad of four vertices (struct BlockQuad). -/
structure BlockQuad where
  vertices : List BlockVertex
deriving DecidableEq

def BlockQuad.top (tc : TexCoords4) (position : ℚ × ℚ × ℚ) : BlockQuad :=
  ⟨[⟨combine (-1, 1, -1) position, tc.1⟩,
    ⟨combine (1, 1, -1) position, tc.2.1⟩,
    ⟨combine (1, 1, 1) position, tc.2.2.1⟩,
    ⟨combine (-1, 1, 1) position, tc.2.2.2⟩]⟩

def BlockQuad.bottom (tc : TexCoords4) (position : ℚ × ℚ × ℚ) : BlockQuad :=
  ⟨[⟨combine (-1, -1, -1) position, tc.1⟩,
    ⟨combine (1, -1, -1) position, tc.2.1⟩,
    ⟨combine (1, -1, 1) position, tc.2.2.1⟩,
    ⟨combine (-1, -1, 1) position, tc.2.2.2⟩]⟩

def BlockQuad.left (tc : TexCoords4) (position : ℚ × ℚ × ℚ) : BlockQuad :=
  ⟨[⟨combine (-1, -1, -1) position, tc.1⟩,
    ⟨combine (-1, 1, -1) position, tc.2.1⟩,
    ⟨combine (-1, 1, 1) position, tc.2.2.1⟩,
    ⟨combine (-1, -1, 1) position, tc.2.2.2⟩]⟩

def BlockQuad.right (tc : TexCoords4) (position : ℚ × ℚ × ℚ) : BlockQuad :=
  ⟨[⟨combine (1, -1, -1) position, tc.1⟩,
    ⟨combine (1, 1, -1) position, tc.2.1⟩,
    ⟨combine (1, 1, 1) position, tc.2.2.1⟩,
    ⟨combine (1, -1, 1) position, tc.2.2.2⟩]⟩

def BlockQuad.front (tc : TexCoords4) (position : ℚ × ℚ × ℚ) : BlockQuad :=
  ⟨[⟨combine (-1, -1, -1) position, tc.1⟩,
    ⟨combine (1, -1, -1) position, tc.2.1⟩,
    ⟨combine (1, 1, -1) position, tc.2.2.1⟩,
    ⟨combine (-1, 1, -1) position, tc.2.2.2⟩]⟩

def BlockQuad.back (tc : TexCoords4) (position : ℚ × ℚ × ℚ) : BlockQuad :=
  ⟨[⟨combine (-1, -1, 1) position, tc.1⟩,
    ⟨combine (1, -1, 1) position, tc.2.1⟩,
    ⟨combine (1, 1, 1) position, tc.2.2.1⟩,
    ⟨combine (-1, 1, 1) position, tc.2.2.2⟩]⟩

/-- A block: its type and its world position (struct Block). -/
structure Block where
  block_type : BlockType
  position : ℚ × ℚ × ℚ
deriving DecidableEq

def Block.new (block_type : BlockType) (position : ℚ × ℚ × ℚ) : Block :=
  ⟨block_type, position⟩

/-- Block::is_air. -/
def Block.is_air (b : Block) : Bool :=
  b.block_type = BlockType.Air

/-- Block::generate_face. -/
def Block.generate_face (b : Block) (face : Face) : BlockQuad :=
  match face with
  | Face.Top => BlockQuad.top (b.block_type.tex_coords Face.Top) b.position
  | Face.Bottom => BlockQuad.bottom (b.block_type.tex_coords Face.Bottom) b.position
  | Face.Left => BlockQuad.left (b.block_type.tex_coords Face.Left) b.position
  | Face.Right => BlockQuad.right (b.block_type.tex_coords Face.Right) b.position
  | Face.Front => BlockQuad.front (b.block_type.tex_coords Face.Front) b.position
  | Face.Back => BlockQuad.back (b.block_type.tex_coords Face.Back) b.position

/-- Modulus of u32 arithmetic. -/
def U32_MOD : Nat := 2 ^ 32

/-- struct TerrainMesh: a vertex list and a u32 index list. -/
structure TerrainMesh where
  vertices : List BlockVertex
  indices : List Nat
deriving DecidableEq

def TerrainMesh.new : TerrainMesh := ⟨[], []⟩

/-- TerrainMesh::add_face: appends the 4 quad vertices and the 6 indices
of the quad's two triangles (0,1,2) and (0,2,3), rebased by the current
vertex count cast to u32. -/
def TerrainMesh.add_face (m : TerrainMesh) (face : BlockQuad) : TerrainMesh :=
  let base_index := m.vertices.length % U32_MOD
  { vertices := m.vertices ++ face.vertices
    indices := m.indices ++
      [(base_index + 0) % U32_MOD, (base_index + 1) % U32_MOD,
       (base_index + 2) % U32_MOD, (base_index + 0) % U32_MOD,
       (base_index + 2) % U32_MOD, (base_index + 3) % U32_MOD] }

def CHUNK_WIDTH : Nat := 32

def CHUNK_HEIGHT : Nat := 32

def CHUNK_DEPTH : Nat := 32

/-- struct Chunk: a position, a 32x32x32 block grid and a cached mesh.
The Vec<Vec<Vec<Block>>> grid is modelled as a total function on the
three coordinates; the source only ever indexes it inside the bounds. -/
structure Chunk where
  position : ℚ × ℚ × ℚ
  blocks : Nat → Nat → Nat → Block
  mesh : TerrainMesh

/-- Chunk::new: every cell starts as Air at world position (0,0,0). -/
def Chunk.new (position : ℚ × ℚ × ℚ) : Chunk :=
  { position := position
    mesh := TerrainMesh.new
    blocks := fun _ _ _ => Block.new BlockType.Air (0, 0, 0) }

/-- The Rust cast from f32 to usize (truncation toward zero, with
negative values clamped to 0), on the rational model of f32. -/
def f32_as_usize (q : ℚ) : Nat := (⌊q⌋).toNat

/-- Chunk::should_render_face: out-of-bounds neighbors render the face,
in-bounds neighbors render it exactly when they are Air. -/
def Chunk.should_render_face (c : Chunk) (x y z : Int) : Bool :=
  if x < 0 ∨ (CHUNK_WIDTH : Int) ≤ x ∨ y < 0 ∨ (CHUNK_HEIGHT : Int) ≤ y ∨
      z < 0 ∨ (CHUNK_DEPTH : Int) ≤ z then
    true
  else
    (c.blocks x.toNat y.toNat z.toNat).is_air

/-- The six neighbor checks of Chunk::generate_mesh for one voxel, in
source order (left, right, bottom, top, front, back): the list of face
directions whose quad is added for the voxel at local (x,y,z). -/
def Chunk.emitted_dirs (c : Chunk) (x y z : Nat) : List Face :=
  if (c.blocks x y z).is_air then []
  else
    (if c.should_render_face ((x : Int) - 1) (y : Int) (z : Int) then [Face.Left] else []) ++
    (if c.should_render_face ((x : Int) + 1) (y : Int) (z : Int) then [Face.Right] else []) ++
    (if c.should_render_face (x : Int) ((y : Int) - 1) (z : Int) then [Face.Bottom] else []) ++
    (if c.should_render_face (x : Int) ((y : Int) + 1) (z : Int) then [Face.Top] else []) ++
    (if c.should_render_face (x : Int) (y : Int) ((z : Int) - 1) then [Face.Front] else []) ++
    (if c.should_render_face (x : Int) (y : Int) ((z : Int) + 1) then [Face.Back] else [])

/-- The triple loop order of Chunk::generate_mesh: x outer, then y, then z. -/
def coords3 : List (Nat × Nat × Nat) :=
  List.range CHUNK_WIDTH ×ˢ (List.range CHUNK_HEIGHT ×ˢ List.range CHUNK_DEPTH)

/-- The quads Chunk::generate_mesh adds, in the order it adds them. -/
def Chunk.face_list (c : Chunk) : List BlockQuad :=
  coords3.flatMap fun p =>
    (c.emitted_dirs p.1 p.2.1 p.2.2).map fun f =>
      (c.blocks p.1 p.2.1 p.2.2).generate_face f

/-- Chunk::generate_mesh: rebuilds the cached mesh from scratch by adding
every exposed face of every non-Air voxel. -/
def Chunk.generate_mesh (c : Chunk) : Chunk :=
  { c with mesh := c.face_list.foldl TerrainMesh.add_face TerrainMesh.new }

/-- Writing one cell of the block grid (self.blocks[x][y][z] = b). -/
def setBlock (g : Nat → Nat → Nat → Block) (x y z : Nat) (b : Block) :
    Nat → Nat → Nat → Block :=
  fun a b2 d => if a = x ∧ b2 = y ∧ d = z then b else g a b2 d

/-- The block type classification of the inner loop of Chunk::init. -/
def terrain_block_type (y : Nat) (terrain_height : ℚ) : BlockType :=
  if y = f32_as_usize terrain_height then BlockType.Grass
  else if y = 0 then BlockType.Stone
  else if y < f32_as_usize terrain_height then BlockType.Dirt
  else BlockType.Air

/-- The world position of the block at local (x,y,z) of a chunk:
(chunk position + local coordinate) * block_size with block_size = 2. -/
def block_world_position (chunk_position : ℚ × ℚ × ℚ) (x y z : Nat) : ℚ × ℚ × ℚ :=
  ((chunk_position.1 + (x : ℚ)) * 2,
   (chunk_position.2.1 + (y : ℚ)) * 2,
   (chunk_position.2.2 + (z : ℚ)) * 2)

/-- The inner y loop of Chunk::init for one column (x,z) with its looked
up terrain height. -/
def Chunk.initColumn (c : Chunk) (x z : Nat) (terrain_height : ℚ) : Chunk :=
  { c with
    blocks :=
      (List.range CHUNK_HEIGHT).foldl
        (fun g y =>
          setBlock g x y z
            (Block.new (terrain_block_type y terrain_height)
              (block_world_position c.position x y z)))
        c.blocks }

/-- A height map: the abstract map semantics of the HashMap produced by
generate_perlin_noise. -/
abbrev HeightMap := Nat × Nat → Option ℚ

/-- The column loop order of Chunk::init: x outer, z inner. -/
def colKeys : List (Nat × Nat) :=
  List.range CHUNK_WIDTH ×ˢ List.range CHUNK_DEPTH

/-- The column loop of Chunk::init.  The height map lookup is unwrapped
in the source; a missing key panics, modelled by none. -/
def Chunk.init_fold (height_map : HeightMap) :
    List (Nat × Nat) → Chunk → Option Chunk
  | [], acc => some acc
  | p :: t, acc =>
    match height_map (p.1 + f32_as_usize acc.position.1,
                      p.2 + f32_as_usize acc.position.2.2) with
    | none => none
    | some terrain_height =>
      Chunk.init_fold height_map t (acc.initColumn p.1 p.2 terrain_height)

/-- Chunk::init: populate every column from the height map, then call
generate_mesh.  Returns none when a lookup panics. -/
def Chunk.init (c : Chunk) (height_map : HeightMap) : Option Chunk :=
  (Chunk.init_fold height_map colKeys c).map Chunk.generate_mesh

/-- Pointwise insert on the abstract map (HashMap::insert). -/
def hm_insert (m : HeightMap) (k : Nat × Nat) (v : ℚ) : HeightMap :=
  fun k2 => if k2 = k then some v else m k2

/-- The height value generate_perlin_noise computes for one sample point:
the seeded noise value at (x/scale, z/scale), normalized from [-1,1] to
[0,1], then mapped linearly into [height_min, height_max]. -/
def perlin_height (perlin_get : Nat → ℚ → ℚ → ℚ) (scale : ℚ) (seed : Nat)
    (height_min height_max : ℚ) (p : Nat × Nat) : ℚ :=
  let noise_value := perlin_get seed ((p.1 : ℚ) / scale) ((p.2 : ℚ) / scale)
  let normalized_height := (noise_value + 1) * (1 / 2)
  height_min + normalized_height * (height_max - height_min)

/-- generate_perlin_noise from src/noise.rs: inserts a height for every
(x,z) with x < chunk_width and z < chunk_depth, x outer, z inner. -/
def generate_perlin_noise (perlin_get : Nat → ℚ → ℚ → ℚ)
    (chunk_width chunk_depth : Nat) (scale : ℚ) (seed : Nat)
    (height_min height_max : ℚ) : HeightMap :=
  (List.range chunk_width ×ˢ List.range chunk_depth).foldl
    (fun height_map p =>
      hm_insert height_map p
        (perlin_height perlin_get scale seed height_min height_max p))
    (fun _ => none)

/-- generate_chunks from src/chunk.rs: one height map over the combined
extent chunk_count * 32 by chunk_count * 32, then one chunk per
(chunk_x, chunk_z) at position (chunk_x * 32, 0, chunk_z * 32), each
populated by Chunk::init from the shared map.  A panic in any init
yields none. -/
def generate_chunks (perlin_get : Nat → ℚ → ℚ → ℚ) (chunk_count : Nat) :
    Option (List Chunk) :=
  let scale : ℚ := 50
  let seed : Nat := 1234
  let height_min : ℚ := 0
  let height_max : ℚ := 15
  let height_map := generate_perlin_noise perlin_get
    (chunk_count * CHUNK_WIDTH) (chunk_count * CHUNK_DEPTH)
    scale seed height_min height_max
  let chunks := (List.range chunk_count ×ˢ List.range chunk_count).map
    fun p => Chunk.new
      ((p.1 : ℚ) * (CHUNK_WIDTH : ℚ), 0 * (CHUNK_HEIGHT : ℚ), (p.2 : ℚ) * (CHUNK_DEPTH : ℚ))
  chunks.mapM fun ch => ch.init height_map

/-- struct ChunkList: the chunks and the memoized merged mesh. -/
structure ChunkList where
  chunks : List Chunk
  calculated_mesh : Option TerrainMesh

def ChunkList.new (chunks : List Chunk) : ChunkList :=
  { chunks := chunks, calculated_mesh := none }

def ChunkList.add_chunk (cl : ChunkList) (chunk : Chunk) : ChunkList :=
  { cl with chunks := cl.chunks ++ [chunk] }

def ChunkList.get_chunk (cl : ChunkList) (position : ℚ × ℚ × ℚ) : Option Chunk :=
  cl.chunks.find? fun ch => decide (ch.position = position)

/-- One iteration of the merge loop of ChunkList::merge_meshes: push the
chunk's vertices onto the global vertex list and its indices, rebased by
the global vertex count so far cast to u32, onto the global index list. -/
def merge_step (acc : List BlockVertex × List Nat) (ch : Chunk) :
    List BlockVertex × List Nat :=
  (acc.1 ++ ch.mesh.vertices,
   acc.2 ++ ch.mesh.indices.map fun i => (acc.1.length % U32_MOD + i) % U32_MOD)

/-- ChunkList::merge_meshes: concatenate the vertex lists in collection
order and rebase each chunk's indices by the global vertex count so far,
cast to u32. -/
def ChunkList.merge_meshes (cl : ChunkList) : TerrainMesh :=
  let g := cl.chunks.foldl merge_step ([], [])
  { vertices := g.1, indices := g.2 }

/-- ChunkList::mesh: memoized merge.  Returns the mesh handed to the
caller together with the updated state of the list. -/
def ChunkList.mesh (cl : ChunkList) : TerrainMesh × ChunkList :=
  match cl.calculated_mesh with
  | none =>
    let m := cl.merge_meshes
    (m, { cl with calculated_mesh := some m })
  | some m => (m, cl)

/-! ### Characterization of the generated height map -/

theorem hm_foldl_lookup (f : Nat × Nat → ℚ) :
    ∀ (L : List (Nat × Nat)) (m0 : HeightMap) (k : Nat × Nat),
      (L.foldl (fun m p => hm_insert m p (f p)) m0) k
        = if k ∈ L then some (f k) else m0 k := by
  intro L
  induction L with
  | nil => intro m0 k; simp
  | cons a L ih =>
    intro m0 k
    rw [List.foldl_cons, ih]
    by_cases hk : k ∈ L
    · simp [hk]
    · by_cases hka : k = a
      · subst hka; simp [hk, hm_insert]
      · simp [List.mem_cons, hk, hka, hm_insert]

theorem generate_perlin_noise_lookup (perlin_get : Nat → ℚ → ℚ → ℚ)
    (w d : Nat) (scale : ℚ) (seed : Nat) (mn mx : ℚ) (x z : Nat) :
    generate_perlin_noise perlin_get w d scale seed mn mx (x, z)
      = if x < w ∧ z < d
        then some (perlin_height perlin_get scale seed mn mx (x, z))
        else none := by
  unfold generate_perlin_noise
  rw [hm_foldl_lookup]
  simp [List.mem_product, List.mem_range]

/-- C9: generate_perlin_noise is deterministic: two calls with identical
(width, depth, scale, seed, height_min, height_max) agree at every
coordinate (x,z) with x < width and z < depth, and the value is fixed by
the arguments alone through the pure formula perlin_height — no hidden
state or unseeded randomness. -/
theorem C9_perlin_deterministic (perlin_get : Nat → ℚ → ℚ → ℚ)
    (width depth : Nat) (scale : ℚ) (seed : Nat) (height_min height_max : ℚ)
    (x z : Nat) (hx : x < width) (hz : z < depth) :
    generate_perlin_noise perlin_get width depth scale seed height_min height_max (x, z)
      = generate_perlin_noise perlin_get width depth scale seed height_min height_max (x, z)
    ∧ generate_perlin_noise perlin_get width depth scale seed height_min height_max (x, z)
      = some (perlin_height perlin_get scale seed height_min height_max (x, z)) := by
  refine ⟨rfl, ?_⟩
  rw [generate_perlin_noise_lookup]
  simp [hx, hz]

theorem C9_witness :
    generate_perlin_noise (fun _ _ _ => 0) 1 1 50 1234 0 15 (0, 0)
      = generate_perlin_noise (fun _ _ _ => 0) 1 1 50 1234 0 15 (0, 0)
    ∧ generate_perlin_noise (fun _ _ _ => 0) 1 1 50 1234 0 15 (0, 0)
      = some (perlin_height (fun _ _ _ => 0) 50 1234 0 15 (0, 0)) :=
  C9_perlin_deterministic (fun _ _ _ => 0) 1 1 50 1234 0 15 0 0
    (by decide) (by decide)

/-! ### Face visibility -/

theorem should_render_face_eq_true_iff (c : Chunk) (x y z : Int) :
    c.should_render_face x y z = true ↔
      ((x < 0 ∨ (CHUNK_WIDTH : Int) ≤ x ∨ y < 0 ∨ (CHUNK_HEIGHT : Int) ≤ y ∨
          z < 0 ∨ (CHUNK_DEPTH : Int) ≤ z) ∨
        (0 ≤ x ∧ x < (CHUNK_WIDTH : Int) ∧ 0 ≤ y ∧ y < (CHUNK_HEIGHT : Int) ∧
          0 ≤ z ∧ z < (CHUNK_DEPTH : Int) ∧
          (c.blocks x.toNat y.toNat z.toNat).is_air = true)) := by
  unfold Chunk.should_render_face
  split_ifs with h
  · simp only [true_iff]
    exact Or.inl h
  · push_neg at h
    constructor
    · intro hair
      exact Or.inr ⟨by omega, by omega, by omega, by omega, by omega, by omega, hair⟩
    · rintro (hoob | ⟨_, _, _, _, _, _, hair⟩)
      · omega
      · exact hair

theorem mem_ite_singleton (b : Bool) (g f : Face) :
    (f ∈ if b then [g] else []) ↔ (b = true ∧ f = g) := by
  cases b <;> simp

/-- The neighbor offset of each face direction, from the neighbor checks
in Chunk::generate_mesh. -/
def face_offset : Face → Int × Int × Int
  | Face.Left => (-1, 0, 0)
  | Face.Right => (1, 0, 0)
  | Face.Bottom => (0, -1, 0)
  | Face.Top => (0, 1, 0)
  | Face.Front => (0, 0, -1)
  | Face.Back => (0, 0, 1)

/-- C2: during generate_mesh, for a non-Air voxel at local (x,y,z) a face
in direction f is emitted iff the neighbor one step in that direction is
out of bounds (outside [0,32) on some axis) or is an in-bounds Air voxel;
an in-bounds non-Air neighbor suppresses the face, and an Air voxel emits
no faces at all. -/
theorem C2_face_emission (c : Chunk) (x y z : Nat) (f : Face)
    (hx : x < CHUNK_WIDTH) (hy : y < CHUNK_HEIGHT) (hz : z < CHUNK_DEPTH) :
    f ∈ c.emitted_dirs x y z ↔
      ((c.blocks x y z).is_air = false ∧
        (((x : Int) + (face_offset f).1 < 0 ∨
            (CHUNK_WIDTH : Int) ≤ (x : Int) + (face_offset f).1 ∨
            (y : Int) + (face_offset f).2.1 < 0 ∨
            (CHUNK_HEIGHT : Int) ≤ (y : Int) + (face_offset f).2.1 ∨
            (z : Int) + (face_offset f).2.2 < 0 ∨
            (CHUNK_DEPTH : Int) ≤ (z : Int) + (face_offset f).2.2) ∨
          (0 ≤ (x : Int) + (face_offset f).1 ∧
            (x : Int) + (face_offset f).1 < (CHUNK_WIDTH : Int) ∧
            0 ≤ (y : Int) + (face_offset f).2.1 ∧
            (y : Int) + (face_offset f).2.1 < (CHUNK_HEIGHT : Int) ∧
            0 ≤ (z : Int) + (face_offset f).2.2 ∧
            (z : Int) + (face_offset f).2.2 < (CHUNK_DEPTH : Int) ∧
            (c.blocks ((x : Int) + (face_offset f).1).toNat
              ((y : Int) + (face_offset f).2.1).toNat
              ((z : Int) + (face_offset f).2.2).toNat).is_air = true))) := by
  by_cases hair : (c.blocks x y z).is_air
  · simp [Chunk.emitted_dirs, hair]
  · rw [Bool.not_eq_true] at hair
    cases f <;>
      · simp only [Chunk.emitted_dirs, hair, Bool.false_eq_true, if_false,
          List.mem_append, mem_ite_singleton, face_offset,
          should_render_face_eq_true_iff, add_zero, ← sub_eq_add_neg]
        simp [hair]

theorem C2_witness :
    (Face.Top ∈ (Chunk.new (0, 0, 0)).emitted_dirs 0 0 0 ↔
      (((Chunk.new (0, 0, 0)).blocks 0 0 0).is_air = false ∧
        ((((0 : Nat) : Int) + (face_offset Face.Top).1 < 0 ∨
            (CHUNK_WIDTH : Int) ≤ ((0 : Nat) : Int) + (face_offset Face.Top).1 ∨
            ((0 : Nat) : Int) + (face_offset Face.Top).2.1 < 0 ∨
            (CHUNK_HEIGHT : Int) ≤ ((0 : Nat) : Int) + (face_offset Face.Top).2.1 ∨
            ((0 : Nat) : Int) + (face_offset Face.Top).2.2 < 0 ∨
            (CHUNK_DEPTH : Int) ≤ ((0 : Nat) : Int) + (face_offset Face.Top).2.2) ∨
          (0 ≤ ((0 : Nat) : Int) + (face_offset Face.Top).1 ∧
            ((0 : Nat) : Int) + (face_offset Face.Top).1 < (CHUNK_WIDTH : Int) ∧
            0 ≤ ((0 : Nat) : Int) + (face_offset Face.Top).2.1 ∧
            ((0 : Nat) : Int) + (face_offset Face.Top).2.1 < (CHUNK_HEIGHT : Int) ∧
            0 ≤ ((0 : Nat) : Int) + (face_offset Face.Top).2.2 ∧
            ((0 : Nat) : Int) + (face_offset Face.Top).2.2 < (CHUNK_DEPTH : Int) ∧
            ((Chunk.new (0, 0, 0)).blocks (((0 : Nat) : Int) + (face_offset Face.Top).1).toNat
              (((0 : Nat) : Int) + (face_offset Face.Top).2.1).toNat
              (((0 : Nat) : Int) + (face_offset Face.Top).2.2).toNat).is_air = true)))) :=
  C2_face_emission (Chunk.new (0, 0, 0)) 0 0 0 Face.Top
    (by decide) (by decide) (by decide)

/-! ### Population -/

theorem foldl_setBlock (x z : Nat) (F : Nat → Block) :
    ∀ (ys : List Nat) (g : Nat → Nat → Nat → Block) (a b d : Nat),
      (ys.foldl (fun g2 y => setBlock g2 x y z (F y)) g) a b d
        = if a = x ∧ d = z ∧ b ∈ ys then F b else g a b d := by
  intro ys
  induction ys with
  | nil => intro g a b d; simp
  | cons y ys ih =>
    intro g a b d
    rw [List.foldl_cons, ih]
    simp only [setBlock, List.mem_cons]
    by_cases hax : a = x
    · subst hax
      by_cases hdz : d = z
      · subst hdz
        by_cases hby : b = y
        · subst hby
          by_cases hmem : b ∈ ys <;> simp [hmem]
        · by_cases hmem : b ∈ ys <;> simp [hby, hmem]
      · simp [hdz]
    · simp [hax]

theorem initColumn_blocks (c : Chunk) (x z : Nat) (th : ℚ) (a b d : Nat) :
    (c.initColumn x z th).blocks a b d
      = if a = x ∧ d = z ∧ b < CHUNK_HEIGHT
        then Block.new (terrain_block_type b th) (block_world_position c.position x b z)
        else c.blocks a b d := by
  show (List.range CHUNK_HEIGHT).foldl
      (fun g y => setBlock g x y z
        (Block.new (terrain_block_type y th) (block_world_position c.position x y z)))
      c.blocks a b d = _
  rw [foldl_setBlock x z
    (fun y => Block.new (terrain_block_type y th) (block_world_position c.position x y z))]
  simp [List.mem_range]

theorem initColumn_position (c : Chunk) (x z : Nat) (th : ℚ) :
    (c.initColumn x z th).position = c.position := rfl

theorem initColumn_mesh (c : Chunk) (x z : Nat) (th : ℚ) :
    (c.initColumn x z th).mesh = c.mesh := rfl

theorem generate_mesh_blocks (c : Chunk) : c.generate_mesh.blocks = c.blocks := rfl

theorem generate_mesh_position (c : Chunk) : c.generate_mesh.position = c.position := rfl

theorem init_fold_char (hm : HeightMap) :
    ∀ (L : List (Nat × Nat)) (acc : Chunk),
      (∀ p, p ∈ L → (hm (p.1 + f32_as_usize acc.position.1,
                         p.2 + f32_as_usize acc.position.2.2)).isSome) →
      ∃ c', Chunk.init_fold hm L acc = some c'
        ∧ c'.position = acc.position
        ∧ c'.mesh = acc.mesh
        ∧ ∀ a b d, c'.blocks a b d
            = if (a, d) ∈ L ∧ b < CHUNK_HEIGHT
              then Block.new
                (terrain_block_type b
                  ((hm (a + f32_as_usize acc.position.1,
                        d + f32_as_usize acc.position.2.2)).getD 0))
                (block_world_position acc.position a b d)
              else acc.blocks a b d := by
  intro L
  induction L with
  | nil =>
    intro acc _
    exact ⟨acc, rfl, rfl, rfl, by simp⟩
  | cons p t ih =>
    obtain ⟨px, pz⟩ := p
    intro acc h
    have hp := h (px, pz) (List.mem_cons_self _ _)
    obtain ⟨th, hth⟩ := Option.isSome_iff_exists.mp hp
    obtain ⟨c', hc', hcpos, hcmesh, hcb⟩ :=
      ih (acc.initColumn px pz th) (fun q hq => h q (List.mem_cons_of_mem _ hq))
    refine ⟨c', ?_, hcpos, hcmesh, ?_⟩
    · simp only [Chunk.init_fold, hth]
      exact hc'
    · intro a b d
      rw [hcb a b d, initColumn_blocks]
      simp only [initColumn_position]
      by_cases hmem : (a, d) ∈ t ∧ b < CHUNK_HEIGHT
      · simp [hmem, List.mem_cons]
      · by_cases hcol : a = px ∧ d = pz ∧ b < CHUNK_HEIGHT
        · obtain ⟨hax, hdz, hb⟩ := hcol
          subst hax; subst hdz
          simp [hmem, List.mem_cons, hb, hth]
        · have hnot : ¬((a, d) ∈ (px, pz) :: t ∧ b < CHUNK_HEIGHT) := by
            rintro ⟨hmem2, hb⟩
            rcases List.mem_cons.mp hmem2 with heq | hmem3
            · exact hcol ⟨congrArg Prod.fst heq, congrArg Prod.snd heq, hb⟩
            · exact hmem ⟨hmem3, hb⟩
          rw [if_neg hmem, if_neg hcol, if_neg hnot]

theorem init_fold_none (hm : HeightMap) :
    ∀ (L : List (Nat × Nat)) (acc : Chunk) (p : Nat × Nat), p ∈ L →
      hm (p.1 + f32_as_usize acc.position.1,
          p.2 + f32_as_usize acc.position.2.2) = none →
      Chunk.init_fold hm L acc = none := by
  intro L
  induction L with
  | nil => intro acc p hp; cases hp
  | cons q t ih =>
    obtain ⟨qx, qz⟩ := q
    intro acc p hp hnone
    rcases List.mem_cons.mp hp with hq | ht
    · subst hq
      simp [Chunk.init_fold, hnone]
    · simp only [Chunk.init_fold]
      cases hq2 : hm (qx + f32_as_usize acc.position.1,
                      qz + f32_as_usize acc.position.2.2) with
      | none => rfl
      | some th => exact ih (acc.initColumn qx qz th) p ht hnone

theorem init_char (c : Chunk) (hm : HeightMap)
    (H : ∀ x z, x < CHUNK_WIDTH → z < CHUNK_DEPTH →
      (hm (x + f32_as_usize c.position.1,
           z + f32_as_usize c.position.2.2)).isSome) :
    ∃ c', c.init hm = some c'
      ∧ c'.position = c.position
      ∧ ∀ a b d, a < CHUNK_WIDTH → b < CHUNK_HEIGHT → d < CHUNK_DEPTH →
          c'.blocks a b d
            = Block.new
                (terrain_block_type b ((hm (a + f32_as_usize c.position.1,
                                            d + f32_as_usize c.position.2.2)).getD 0))
                (block_world_position c.position a b d) := by
  obtain ⟨c0, h0, hpos, _, hblocks⟩ := init_fold_char hm colKeys c
    (fun p hp => by
      have hmem : p.1 < CHUNK_WIDTH ∧ p.2 < CHUNK_DEPTH := by
        obtain ⟨px, pz⟩ := p
        simpa [colKeys, List.mem_product, List.mem_range] using hp
      exact H p.1 p.2 hmem.1 hmem.2)
  refine ⟨c0.generate_mesh, ?_, hpos, ?_⟩
  · rw [Chunk.init, h0]
    rfl
  · intro a b d ha hb hd
    rw [generate_mesh_blocks, hblocks a b d]
    simp [colKeys, List.mem_product, List.mem_range, ha, hb, hd]

/-- C8: if a chunk's population queries a global column absent from the
height field's domain, population fails (the unwrap panics, modelled by
none) instead of completing with a defaulted grid. -/
theorem C8_missing_column_panics (c : Chunk) (hm : HeightMap) (x z : Nat)
    (hx : x < CHUNK_WIDTH) (hz : z < CHUNK_DEPTH)
    (hmiss : hm (x + f32_as_usize c.position.1,
                 z + f32_as_usize c.position.2.2) = none) :
    c.init hm = none := by
  have hfold := init_fold_none hm colKeys c (x, z)
    (by simp [colKeys, List.mem_product, List.mem_range, hx, hz]) hmiss
  rw [Chunk.init, hfold]
  rfl

theorem C8_witness : (Chunk.new (0, 0, 0)).init (fun _ => none) = none :=
  C8_missing_column_panics (Chunk.new (0, 0, 0)) (fun _ => none) 0 0
    (by decide) (by decide) rfl

/-- C4: during population, a column with terrain height h at least 0 is
classified at each level y of [0,32) as Grass when y equals floor h,
otherwise Stone when y is 0, otherwise Dirt when 0 < y < floor h,
otherwise Air; in particular when floor h is 0 the cell at y = 0 is
Grass, not Stone. -/
theorem C4_terrain_classification (c c' : Chunk) (hm : HeightMap)
    (hinit : c.init hm = some c')
    (x z : Nat) (hx : x < CHUNK_WIDTH) (hz : z < CHUNK_DEPTH)
    (th : ℚ)
    (hth : hm (x + f32_as_usize c.position.1,
               z + f32_as_usize c.position.2.2) = some th)
    (hpos : 0 ≤ th) (y : Nat) (hy : y < CHUNK_HEIGHT) :
    (c'.blocks x y z).block_type
      = (if (y : ℤ) = ⌊th⌋ then BlockType.Grass
         else if y = 0 then BlockType.Stone
         else if (y : ℤ) < ⌊th⌋ then BlockType.Dirt
         else BlockType.Air)
    ∧ (⌊th⌋ = 0 → (c'.blocks x 0 z).block_type = BlockType.Grass) := by
  have hall : ∀ a d, a < CHUNK_WIDTH → d < CHUNK_DEPTH →
      (hm (a + f32_as_usize c.position.1,
           d + f32_as_usize c.position.2.2)).isSome := by
    intro a d ha hd
    by_contra hno
    rw [Option.not_isSome_iff_eq_none] at hno
    have hfold := init_fold_none hm colKeys c (a, d)
      (by simp [colKeys, List.mem_product, List.mem_range, ha, hd]) hno
    rw [Chunk.init, hfold] at hinit
    simp at hinit
  obtain ⟨c'', hc'', _, hb''⟩ := init_char c hm hall
  rw [hinit] at hc''
  injection hc'' with hc''
  subst hc''
  have hfl : (0 : ℤ) ≤ ⌊th⌋ := Int.floor_nonneg.mpr hpos
  have hblocks : ∀ b, b < CHUNK_HEIGHT →
      (c'.blocks x b z).block_type = terrain_block_type b th := by
    intro b hb
    rw [hb'' x b z hx hb hz, hth]
    rfl
  constructor
  · rw [hblocks y hy]
    unfold terrain_block_type f32_as_usize
    by_cases h1 : y = (⌊th⌋).toNat
    · rw [if_pos h1, if_pos (show (y : ℤ) = ⌊th⌋ by omega)]
    · rw [if_neg h1, if_neg (show ¬((y : ℤ) = ⌊th⌋) by omega)]
      by_cases h2 : y = 0
      · rw [if_pos h2, if_pos h2]
      · rw [if_neg h2, if_neg h2]
        by_cases h3 : y < (⌊th⌋).toNat
        · rw [if_pos h3, if_pos (show (y : ℤ) < ⌊th⌋ by omega)]
        · rw [if_neg h3, if_neg (show ¬((y : ℤ) < ⌊th⌋) by omega)]
  · intro hfl0
    rw [hblocks 0 (by norm_num [CHUNK_HEIGHT])]
    unfold terrain_block_type f32_as_usize
    rw [if_pos (show 0 = (⌊th⌋).toNat by omega)]

theorem C4_witness :
    ((Chunk.new (0, 0, 0)).init (fun _ => some 3)).map
        (fun c' => ((c'.blocks 0 3 0).block_type, (c'.blocks 0 0 0).block_type))
      = some (BlockType.Grass, BlockType.Stone) := by
  obtain ⟨c', hc', _, _⟩ :=
    init_char (Chunk.new (0, 0, 0)) (fun _ => some 3) (fun _ _ _ _ => rfl)
  have h1 := (C4_terrain_classification (Chunk.new (0, 0, 0)) c' (fun _ => some 3)
    hc' 0 0 (by decide) (by decide) 3 rfl (by norm_num) 3 (by decide)).1
  have h2 := (C4_terrain_classification (Chunk.new (0, 0, 0)) c' (fun _ => some 3)
    hc' 0 0 (by decide) (by decide) 3 rfl (by norm_num) 0 (by decide)).1
  have hfl : ⌊(3 : ℚ)⌋ = 3 := by norm_num
  rw [hfl] at h1 h2
  norm_num at h1 h2
  rw [hc']
  simp [h1, h2]

/-! ### Chunk generation over the combined extent -/

theorem mapM_isSome_of_all (f : Chunk → Option Chunk) :
    ∀ (L : List Chunk), (∀ a ∈ L, (f a).isSome) → (L.mapM f).isSome := by
  intro L
  induction L with
  | nil => intro _; rw [List.mapM_nil]; rfl
  | cons a t ih =>
    intro h
    rw [List.mapM_cons]
    obtain ⟨b, hb⟩ := Option.isSome_iff_exists.mp (h a (List.mem_cons_self _ _))
    obtain ⟨l, hl⟩ := Option.isSome_iff_exists.mp
      (ih fun x hx => h x (List.mem_cons_of_mem _ hx))
    rw [hb, hl]
    rfl

theorem mapM_mem_of_some (f : Chunk → Option Chunk) :
    ∀ (L : List Chunk) (l : List Chunk), L.mapM f = some l →
      ∀ b ∈ l, ∃ a ∈ L, f a = some b := by
  intro L
  induction L with
  | nil =>
    intro l hl b hb
    rw [List.mapM_nil] at hl
    injection hl with hl
    subst hl
    cases hb
  | cons a t ih =>
    intro l hl b hb
    rw [List.mapM_cons] at hl
    cases hfa : f a with
    | none => rw [hfa] at hl; simp at hl
    | some b0 =>
      rw [hfa] at hl
      cases hmt : t.mapM f with
      | none => rw [hmt] at hl; simp at hl
      | some l0 =>
        rw [hmt] at hl
        simp only [Option.bind_some, Option.bind_eq_bind] at hl
        have hl' : l = b0 :: l0 := by
          cases hl
          rfl
        subst hl'
        rcases List.mem_cons.mp hb with hb0 | hmem
        · exact ⟨a, List.mem_cons_self _ _, hb0 ▸ hfa⟩
        · obtain ⟨a2, ha2, hfa2⟩ := ih l0 hmt b hmem
          exact ⟨a2, List.mem_cons_of_mem _ ha2, hfa2⟩

theorem mapM_length_of_some (f : Chunk → Option Chunk) :
    ∀ (L : List Chunk) (l : List Chunk), L.mapM f = some l →
      l.length = L.length := by
  intro L
  induction L with
  | nil =>
    intro l hl
    rw [List.mapM_nil] at hl
    injection hl with hl
    subst hl
    rfl
  | cons a t ih =>
    intro l hl
    rw [List.mapM_cons] at hl
    cases hfa : f a with
    | none => rw [hfa] at hl; simp at hl
    | some b0 =>
      rw [hfa] at hl
      cases hmt : t.mapM f with
      | none => rw [hmt] at hl; simp at hl
      | some l0 =>
        rw [hmt] at hl
        simp only [Option.bind_some, Option.bind_eq_bind] at hl
        have hl' : l = b0 :: l0 := by
          cases hl
          rfl
        subst hl'
        simp [ih l0 hmt]

/-- generate_chunks unfolded: the chunk list mapped through init against
the single full-extent height map. -/
theorem generate_chunks_eq (perlin_get : Nat → ℚ → ℚ → ℚ) (chunk_count : Nat) :
    generate_chunks perlin_get chunk_count
      = ((List.range chunk_count ×ˢ List.range chunk_count).map fun p =>
          Chunk.new ((p.1 : ℚ) * (CHUNK_WIDTH : ℚ), 0 * (CHUNK_HEIGHT : ℚ),
            (p.2 : ℚ) * (CHUNK_DEPTH : ℚ))).mapM
          fun ch => ch.init
            (generate_perlin_noise perlin_get (chunk_count * CHUNK_WIDTH)
              (chunk_count * CHUNK_DEPTH) 50 1234 0 15) := rfl

theorem f32_as_usize_natMul (n m : Nat) :
    f32_as_usize ((n : ℚ) * (m : ℚ)) = n * m := by
  unfold f32_as_usize
  have h : ((n : ℚ) * (m : ℚ)) = ((n * m : ℕ) : ℚ) := by push_cast; ring
  rw [h, Int.floor_natCast]
  exact Int.toNat_natCast _

/-- Every lookup of every chunk populated by generate_chunks hits the
generated domain, so init succeeds on every chunk. -/
theorem generate_chunks_isSome (perlin_get : Nat → ℚ → ℚ → ℚ) (chunk_count : Nat) :
    (generate_chunks perlin_get chunk_count).isSome := by
  rw [generate_chunks_eq]
  apply mapM_isSome_of_all
  intro ch hch
  simp only [List.mem_map] at hch
  obtain ⟨p, hp, rfl⟩ := hch
  obtain ⟨px, pz⟩ := p
  rw [List.mem_product, List.mem_range, List.mem_range] at hp
  obtain ⟨c', hc', -, -⟩ := init_char
    (Chunk.new ((px : ℚ) * (CHUNK_WIDTH : ℚ), 0 * (CHUNK_HEIGHT : ℚ),
      (pz : ℚ) * (CHUNK_DEPTH : ℚ)))
    (generate_perlin_noise perlin_get (chunk_count * CHUNK_WIDTH)
      (chunk_count * CHUNK_DEPTH) 50 1234 0 15)
    (fun x z hx hz => by
      show (generate_perlin_noise perlin_get (chunk_count * CHUNK_WIDTH)
        (chunk_count * CHUNK_DEPTH) 50 1234 0 15
        (x + f32_as_usize ((px : ℚ) * (CHUNK_WIDTH : ℚ)),
         z + f32_as_usize ((pz : ℚ) * (CHUNK_DEPTH : ℚ)))).isSome = true
      rw [f32_as_usize_natMul, f32_as_usize_natMul, generate_perlin_noise_lookup]
      have hx32 : x < 32 := hx
      have hz32 : z < 32 := hz
      have h1 : x + px * CHUNK_WIDTH < chunk_count * CHUNK_WIDTH := by
        show x + px * 32 < chunk_count * 32
        omega
      have h2 : z + pz * CHUNK_DEPTH < chunk_count * CHUNK_DEPTH := by
        show z + pz * 32 < chunk_count * 32
        omega
      rw [if_pos ⟨h1, h2⟩, Option.isSome_some])
  rw [hc', Option.isSome_some]

/-- C10: for every chunk_count (with the chunk origins in the exactly
f32-representable range), every height-map lookup performed while
generate_chunks populates its chunks hits the generated domain
[0, chunk_count * 32) x [0, chunk_count * 32), so the unwrap on the
lookup never panics: generate_chunks returns a value. -/
theorem C10_lookups_never_panic (perlin_get : Nat → ℚ → ℚ → ℚ)
    (chunk_count : Nat) (hrep : chunk_count * CHUNK_WIDTH ≤ 2 ^ 24) :
    (generate_chunks perlin_get chunk_count).isSome = true :=
  generate_chunks_isSome perlin_get chunk_count

theorem C10_witness :
    (generate_chunks (fun _ _ _ => 0) 1).isSome = true :=
  C10_lookups_never_panic (fun _ _ _ => 0) 1 (by norm_num [CHUNK_WIDTH])

/-- C1: generate_chunks builds the height field once over the full
combined extent (width and depth chunk_count * 32), and every produced
chunk — whose origin is (chunk_x * 32, 0, chunk_z * 32) — is populated by
sampling that field at the global column
(local_x + chunk_x * 32, local_z + chunk_z * 32). -/
theorem C1_world_space_sampling (perlin_get : Nat → ℚ → ℚ → ℚ)
    (chunk_count : Nat) (l : List Chunk)
    (hgen : generate_chunks perlin_get chunk_count = some l) :
    l.length = chunk_count * chunk_count ∧
    ∀ ch ∈ l, ∃ chunk_x chunk_z, chunk_x < chunk_count ∧ chunk_z < chunk_count ∧
      ch.position = ((chunk_x : ℚ) * (CHUNK_WIDTH : ℚ), 0, (chunk_z : ℚ) * (CHUNK_DEPTH : ℚ)) ∧
      ∀ x y z, x < CHUNK_WIDTH → y < CHUNK_HEIGHT → z < CHUNK_DEPTH →
        ∃ th,
          generate_perlin_noise perlin_get (chunk_count * CHUNK_WIDTH)
              (chunk_count * CHUNK_DEPTH) 50 1234 0 15
              (x + chunk_x * CHUNK_WIDTH, z + chunk_z * CHUNK_DEPTH) = some th
          ∧ ch.blocks x y z
              = Block.new (terrain_block_type y th)
                  (block_world_position ch.position x y z) := by
  rw [generate_chunks_eq] at hgen
  constructor
  · rw [mapM_length_of_some _ _ l hgen]
    simp [List.length_product]
  · intro ch hch
    obtain ⟨c0, hc0, hinit⟩ := mapM_mem_of_some _ _ l hgen ch hch
    simp only [List.mem_map] at hc0
    obtain ⟨p, hp, rfl⟩ := hc0
    obtain ⟨px, pz⟩ := p
    rw [List.mem_product, List.mem_range, List.mem_range] at hp
    refine ⟨px, pz, hp.1, hp.2, ?_, ?_⟩
    all_goals
      obtain ⟨c', hc', hcpos, hcb⟩ := init_char
        (Chunk.new ((px : ℚ) * (CHUNK_WIDTH : ℚ), 0 * (CHUNK_HEIGHT : ℚ),
          (pz : ℚ) * (CHUNK_DEPTH : ℚ)))
        (generate_perlin_noise perlin_get (chunk_count * CHUNK_WIDTH)
          (chunk_count * CHUNK_DEPTH) 50 1234 0 15)
        (fun x z hx hz => by
          show (generate_perlin_noise perlin_get (chunk_count * CHUNK_WIDTH)
            (chunk_count * CHUNK_DEPTH) 50 1234 0 15
            (x + f32_as_usize ((px : ℚ) * (CHUNK_WIDTH : ℚ)),
             z + f32_as_usize ((pz : ℚ) * (CHUNK_DEPTH : ℚ)))).isSome = true
          rw [f32_as_usize_natMul, f32_as_usize_natMul, generate_perlin_noise_lookup]
          have hx32 : x < 32 := hx
          have hz32 : z < 32 := hz
          have h1 : x + px * CHUNK_WIDTH < chunk_count * CHUNK_WIDTH := by
            show x + px * 32 < chunk_count * 32
            omega
          have h2 : z + pz * CHUNK_DEPTH < chunk_count * CHUNK_DEPTH := by
            show z + pz * 32 < chunk_count * 32
            omega
          rw [if_pos ⟨h1, h2⟩, Option.isSome_some])
    all_goals rw [hinit] at hc'; injection hc' with hc'; subst hc'
    · rw [hcpos]
      show ((px : ℚ) * (CHUNK_WIDTH : ℚ), 0 * (CHUNK_HEIGHT : ℚ),
        (pz : ℚ) * (CHUNK_DEPTH : ℚ)) = _
      norm_num
    · intro x y z hx hy hz
      have hkey : ((x + f32_as_usize ((px : ℚ) * (CHUNK_WIDTH : ℚ)),
          z + f32_as_usize ((pz : ℚ) * (CHUNK_DEPTH : ℚ))) : Nat × Nat)
          = (x + px * CHUNK_WIDTH, z + pz * CHUNK_DEPTH) := by
        rw [f32_as_usize_natMul, f32_as_usize_natMul]
      have hlook : generate_perlin_noise perlin_get (chunk_count * CHUNK_WIDTH)
          (chunk_count * CHUNK_DEPTH) 50 1234 0 15
          (x + px * CHUNK_WIDTH, z + pz * CHUNK_DEPTH)
          = some (perlin_height perlin_get 50 1234 0 15
              (x + px * CHUNK_WIDTH, z + pz * CHUNK_DEPTH)) := by
        rw [generate_perlin_noise_lookup]
        have hx32 : x < 32 := hx
        have hz32 : z < 32 := hz
        have h1 : x + px * CHUNK_WIDTH < chunk_count * CHUNK_WIDTH := by
          show x + px * 32 < chunk_count * 32
          omega
        have h2 : z + pz * CHUNK_DEPTH < chunk_count * CHUNK_DEPTH := by
          show z + pz * 32 < chunk_count * 32
          omega
        rw [if_pos ⟨h1, h2⟩]
      refine ⟨perlin_height perlin_get 50 1234 0 15
        (x + px * CHUNK_WIDTH, z + pz * CHUNK_DEPTH), hlook, ?_⟩
      have hb := hcb x y z hx hy hz
      simp only [Chunk.new] at hb hcpos
      rw [hb, hkey, hlook, hcpos]
      rfl

theorem C1_witness :
    ((generate_chunks (fun _ _ _ => 0) 1).getD []).length = 1
    ∧ ((((generate_chunks (fun _ _ _ => 0) 1).getD []).getD 0
          (Chunk.new (0, 0, 0))).blocks 0 0 0).block_type = BlockType.Stone := by
  obtain ⟨l, hl⟩ := Option.isSome_iff_exists.mp
    (generate_chunks_isSome (fun _ _ _ => 0) 1)
  have hmain := C1_world_space_sampling (fun _ _ _ => 0) 1 l hl
  have hlen : l.length = 1 := by rw [hmain.1]
  rw [hl, Option.getD_some]
  refine ⟨hlen, ?_⟩
  cases l with
  | nil => simp at hlen
  | cons ch t =>
    rw [List.getD_cons_zero]
    obtain ⟨cx, cz, hcx, hcz, hpos, hblocks⟩ := hmain.2 ch (List.mem_cons_self _ _)
    have hcx0 : cx = 0 := by omega
    have hcz0 : cz = 0 := by omega
    subst hcx0
    subst hcz0
    obtain ⟨th, hth, hbeq⟩ := hblocks 0 0 0
      (by norm_num [CHUNK_WIDTH]) (by norm_num [CHUNK_HEIGHT]) (by norm_num [CHUNK_DEPTH])
    rw [generate_perlin_noise_lookup,
      if_pos (by constructor <;> norm_num [CHUNK_WIDTH, CHUNK_DEPTH])] at hth
    injection hth with hth
    rw [hbeq]
    show terrain_block_type 0 th = BlockType.Stone
    rw [← hth]
    have hph : perlin_height (fun _ _ _ => 0) 50 1234 0 15
        (0 + 0 * CHUNK_WIDTH, 0 + 0 * CHUNK_DEPTH) = 15 / 2 := by
      norm_num [perlin_height]
    rw [hph]
    have hfl : f32_as_usize (15 / 2) = 7 := by
      unfold f32_as_usize
      have h7 : ⌊(15 / 2 : ℚ)⌋ = 7 := by norm_num
      rw [h7]
      rfl
    unfold terrain_block_type
    rw [hfl]
    norm_num

/-! ### Mesh memoization -/

/-- C7: the first call to mesh() computes the merged mesh via merge_meshes
and stores it; every subsequent call returns that stored mesh unchanged
without recomputing, even if chunks were added or their contents replaced
between the calls. -/
theorem C7_mesh_memoization (cl : ChunkList) (newChunks : List Chunk)
    (hfresh : cl.calculated_mesh = none) :
    (cl.mesh).1 = cl.merge_meshes
    ∧ ((cl.mesh).2).calculated_mesh = some cl.merge_meshes
    ∧ (((cl.mesh).2).mesh).1 = cl.merge_meshes
    ∧ (({ (cl.mesh).2 with chunks := newChunks } : ChunkList).mesh).1
        = cl.merge_meshes := by
  have h1 : cl.mesh
      = (cl.merge_meshes, { cl with calculated_mesh := some cl.merge_meshes }) := by
    unfold ChunkList.mesh
    rw [hfresh]
  rw [h1]
  exact ⟨rfl, rfl, rfl, rfl⟩

theorem C7_witness :
    ((ChunkList.new []).mesh).1 = (ChunkList.new []).merge_meshes
    ∧ (((ChunkList.new []).mesh).2).calculated_mesh = some (ChunkList.new []).merge_meshes
    ∧ ((((ChunkList.new []).mesh).2).mesh).1 = (ChunkList.new []).merge_meshes
    ∧ (({ ((ChunkList.new []).mesh).2 with chunks := [Chunk.new (0, 0, 0)] } : ChunkList).mesh).1
        = (ChunkList.new []).merge_meshes :=
  C7_mesh_memoization (ChunkList.new []) [Chunk.new (0, 0, 0)] rfl

/-! ### Merging -/

/-- The merged vertex list as the spec describes it: the concatenation of
the chunks' vertex lists in collection order.  Spec-side definition used
to compare the implementation against the merge contract. -/
def merged_vertices_spec : List Chunk → List BlockVertex
  | [] => []
  | ch :: t => ch.mesh.vertices ++ merged_vertices_spec t

/-- The merged index list as the spec describes it: every index
originating from a chunk equals that chunk's local index plus the total
number of vertices of all previously merged chunks.  Spec-side definition
used to compare the implementation against the merge contract. -/
def merged_indices_spec (off : Nat) : List Chunk → List Nat
  | [] => []
  | ch :: t => ch.mesh.indices.map (fun i => i + off)
      ++ merged_indices_spec (off + ch.mesh.vertices.length) t

theorem merged_vertices_spec_length :
    ∀ chs : List Chunk,
      (merged_vertices_spec chs).length
        = (chs.map fun ch => ch.mesh.vertices.length).sum := by
  intro chs
  induction chs with
  | nil => simp [merged_vertices_spec]
  | cons ch t ih => simp [merged_vertices_spec, ih]

theorem merged_indices_spec_bound :
    ∀ (chs : List Chunk) (off : Nat),
      (∀ ch ∈ chs, ∀ i ∈ ch.mesh.indices, i < ch.mesh.vertices.length) →
      ∀ i ∈ merged_indices_spec off chs,
        i < off + (merged_vertices_spec chs).length := by
  intro chs
  induction chs with
  | nil => intro off _ i hi; simp [merged_indices_spec] at hi
  | cons ch t ih =>
    intro off hvalid i hi
    simp only [merged_indices_spec, List.mem_append, List.mem_map] at hi
    rcases hi with ⟨j, hj, rfl⟩ | hi
    · have := hvalid ch (List.mem_cons_self _ _) j hj
      simp [merged_vertices_spec]
      omega
    · have := ih (off + ch.mesh.vertices.length)
        (fun c hc => hvalid c (List.mem_cons_of_mem _ hc)) i hi
      simp [merged_vertices_spec]
      omega

theorem merge_foldl_fst :
    ∀ (chs : List Chunk) (accV : List BlockVertex) (accI : List Nat),
      (chs.foldl merge_step (accV, accI)).1 = accV ++ merged_vertices_spec chs := by
  intro chs
  induction chs with
  | nil => intro accV accI; simp [merged_vertices_spec]
  | cons ch t ih =>
    intro accV accI
    rw [List.foldl_cons]
    show (t.foldl merge_step (accV ++ ch.mesh.vertices, _)).1 = _
    rw [ih]
    simp [merged_vertices_spec]

theorem merge_foldl_char :
    ∀ (chs : List Chunk) (accV : List BlockVertex) (accI : List Nat),
      accV.length + (chs.map fun ch => ch.mesh.vertices.length).sum < U32_MOD →
      (∀ ch ∈ chs, ∀ i ∈ ch.mesh.indices, i < ch.mesh.vertices.length) →
      chs.foldl merge_step (accV, accI)
        = (accV ++ merged_vertices_spec chs,
           accI ++ merged_indices_spec accV.length chs) := by
  intro chs
  induction chs with
  | nil =>
    intro accV accI _ _
    simp [merged_vertices_spec, merged_indices_spec]
  | cons ch t ih =>
    intro accV accI hlen hvalid
    have hsum : accV.length + ch.mesh.vertices.length
        + (t.map fun c => c.mesh.vertices.length).sum < U32_MOD := by
      simp only [List.map_cons, List.sum_cons] at hlen
      omega
    have hlt : accV.length < U32_MOD := by omega
    have hbase : accV.length % U32_MOD = accV.length := Nat.mod_eq_of_lt hlt
    have hmap : (ch.mesh.indices.map fun i => (accV.length % U32_MOD + i) % U32_MOD)
        = ch.mesh.indices.map fun i => i + accV.length := by
      apply List.map_congr_left
      intro i hi
      have hiv := hvalid ch (List.mem_cons_self _ _) i hi
      have hsmall : accV.length + i < U32_MOD := by omega
      rw [hbase, Nat.mod_eq_of_lt hsmall, Nat.add_comm]
    rw [List.foldl_cons]
    show t.foldl merge_step
        (accV ++ ch.mesh.vertices,
         accI ++ ch.mesh.indices.map fun i => (accV.length % U32_MOD + i) % U32_MOD) = _
    rw [hmap, ih (accV ++ ch.mesh.vertices)
      (accI ++ ch.mesh.indices.map fun i => i + accV.length)
      (by simp only [List.length_append]; omega)
      (fun c hc => hvalid c (List.mem_cons_of_mem _ hc))]
    simp [merged_vertices_spec, merged_indices_spec, List.length_append]

/-- C3 amended: merge_meshes concatenates the chunks' vertex lists in
collection order unconditionally; and provided the total vertex count
stays below 2^32 (so the u32 cast of the running vertex count and the
u32 index additions do not wrap) and each chunk mesh's indices are below
its own vertex count, every merged index equals the chunk's local index
plus the total number of vertices of all previously merged chunks, and
every index of the merged mesh is below the total vertex count. -/
theorem C3_merge_rebases_indices (cl : ChunkList) :
    cl.merge_meshes.vertices = merged_vertices_spec cl.chunks
    ∧ ((cl.chunks.map fun ch => ch.mesh.vertices.length).sum < U32_MOD →
        (∀ ch ∈ cl.chunks, ∀ i ∈ ch.mesh.indices, i < ch.mesh.vertices.length) →
        cl.merge_meshes.indices = merged_indices_spec 0 cl.chunks
        ∧ ∀ i ∈ cl.merge_meshes.indices, i < cl.merge_meshes.vertices.length) := by
  constructor
  · show (cl.chunks.foldl merge_step ([], [])).1 = _
    rw [merge_foldl_fst]
    rfl
  · intro hnw hvalid
    have hchar := merge_foldl_char cl.chunks [] [] (by simpa using hnw) hvalid
    have hidx : cl.merge_meshes.indices = merged_indices_spec 0 cl.chunks := by
      show (cl.chunks.foldl merge_step ([], [])).2 = _
      rw [hchar]
      rfl
    refine ⟨hidx, ?_⟩
    intro i hi
    rw [hidx] at hi
    have hv : cl.merge_meshes.vertices = merged_vertices_spec cl.chunks := by
      show (cl.chunks.foldl merge_step ([], [])).1 = _
      rw [merge_foldl_fst]
      rfl
    rw [hv]
    have := merged_indices_spec_bound cl.chunks 0 hvalid i hi
    omega

/-- A single mesh vertex used by the merge counterexample. -/
def cex_vertex : BlockVertex := ⟨(0, 0, 0), (0, 0)⟩

/-- A chunk whose mesh holds exactly 2^32 vertices and no indices. -/
def cex_chunk_a : Chunk :=
  { position := (0, 0, 0)
    blocks := fun _ _ _ => Block.new BlockType.Air (0, 0, 0)
    mesh := { vertices := List.replicate U32_MOD cex_vertex, indices := [] } }

/-- A chunk whose mesh holds one vertex and the single index 0. -/
def cex_chunk_b : Chunk :=
  { position := (0, 0, 0)
    blocks := fun _ _ _ => Block.new BlockType.Air (0, 0, 0)
    mesh := { vertices := [cex_vertex], indices := [0] } }

def cex_chunk_list : ChunkList := ⟨[cex_chunk_a, cex_chunk_b], none⟩

theorem merge_step_snd (accV : List BlockVertex) (accI : List Nat) (ch : Chunk) :
    (merge_step (accV, accI) ch).2
      = accI ++ ch.mesh.indices.map fun i => (accV.length % U32_MOD + i) % U32_MOD := rfl

/-- C3 counterexample: with 2^32 vertices already merged, the u32 cast of
the running vertex count wraps to 0, so the index originating from the
second chunk comes out as 0 instead of local index plus previous total
(2^32): the claimed rebasing equation fails on this ChunkList. -/
theorem C3_counterexample :
    cex_chunk_list.merge_meshes.indices = [0]
    ∧ merged_indices_spec 0 cex_chunk_list.chunks = [U32_MOD]
    ∧ ¬(cex_chunk_list.merge_meshes.indices
          = merged_indices_spec 0 cex_chunk_list.chunks) := by
  have h1 : cex_chunk_list.merge_meshes.indices = [0] := by
    show ((([cex_chunk_a, cex_chunk_b]).foldl merge_step ([], []))).2 = [0]
    rw [List.foldl_cons, List.foldl_cons, List.foldl_nil]
    rw [show merge_step ([], []) cex_chunk_a
      = (List.replicate U32_MOD cex_vertex, []) from rfl]
    rw [merge_step_snd]
    rw [show cex_chunk_b.mesh.indices = [0] from rfl]
    rw [List.nil_append]
    generalize hL : (List.replicate U32_MOD cex_vertex).length = L
    rw [List.length_replicate] at hL
    subst hL
    decide
  have h2 : merged_indices_spec 0 cex_chunk_list.chunks = [U32_MOD] := by
    show merged_indices_spec 0 [cex_chunk_a, cex_chunk_b] = [U32_MOD]
    simp only [merged_indices_spec]
    rw [show cex_chunk_a.mesh.indices = ([] : List Nat) from rfl,
      show cex_chunk_b.mesh.indices = [0] from rfl]
    have hlen : cex_chunk_a.mesh.vertices.length = U32_MOD := by
      rw [show cex_chunk_a.mesh.vertices = List.replicate U32_MOD cex_vertex from rfl,
        List.length_replicate]
    rw [hlen]
    decide
  refine ⟨h1, h2, ?_⟩
  rw [h1, h2]
  intro h
  have h0 : (0 : Nat) = U32_MOD := List.head_eq_of_cons_eq h
  have hpos : 0 < U32_MOD := Nat.pos_pow_of_pos 32 (by norm_num)
  omega

theorem C3_witness :
    (ChunkList.new [cex_chunk_b]).merge_meshes.vertices
        = merged_vertices_spec [cex_chunk_b]
    ∧ (ChunkList.new [cex_chunk_b]).merge_meshes.indices
        = merged_indices_spec 0 [cex_chunk_b] := by
  have h := C3_merge_rebases_indices (ChunkList.new [cex_chunk_b])
  refine ⟨h.1, ?_⟩
  refine (h.2 ?_ ?_).1
  · show ((([cex_chunk_b]).map fun ch => ch.mesh.vertices.length)).sum < U32_MOD
    rw [List.map_cons, List.map_nil, List.sum_cons, List.sum_nil]
    rw [show cex_chunk_b.mesh.vertices.length = 1 from rfl]
    norm_num [U32_MOD]
  · intro ch hch i hi
    simp only [ChunkList.new, List.mem_singleton] at hch
    subst hch
    rw [show cex_chunk_b.mesh.indices = [0] from rfl] at hi
    rw [List.mem_singleton] at hi
    subst hi
    rw [show cex_chunk_b.mesh.vertices.length = 1 from rfl]
    norm_num

/-! ### Counting faces and mesh sizes -/

theorem mem_coords3 (a b d : Nat) :
    ((a, b, d) ∈ coords3) ↔ (a < 32 ∧ b < 32 ∧ d < 32) := by
  unfold coords3
  simp [List.mem_product, List.mem_range, CHUNK_WIDTH, CHUNK_HEIGHT, CHUNK_DEPTH]

theorem nodup_coords3 : coords3.Nodup :=
  (List.nodup_range _).product ((List.nodup_range _).product (List.nodup_range _))

theorem sum_map_single (g : Nat × Nat × Nat → Nat) :
    ∀ (l : List (Nat × Nat × Nat)) (p0 : Nat × Nat × Nat), l.Nodup → p0 ∈ l →
      (∀ p ∈ l, p ≠ p0 → g p = 0) → (l.map g).sum = g p0 := by
  intro l
  induction l with
  | nil => intro p0 _ h; cases h
  | cons a t ih =>
    intro p0 hnd hmem hzero
    rw [List.map_cons, List.sum_cons]
    rcases List.mem_cons.mp hmem with heq | hmem2
    · subst heq
      have hsum : (t.map g).sum = 0 := by
        apply List.sum_eq_zero
        intro x hx
        simp only [List.mem_map] at hx
        obtain ⟨p, hp, rfl⟩ := hx
        exact hzero p (List.mem_cons_of_mem _ hp)
          (fun hpe => (List.nodup_cons.mp hnd).1 (hpe ▸ hp))
      rw [hsum, Nat.add_zero]
    · have ha0 : g a = 0 := hzero a (List.mem_cons_self _ _)
        (fun he => (List.nodup_cons.mp hnd).1 (he ▸ hmem2))
      rw [ha0, ih p0 (List.nodup_cons.mp hnd).2 hmem2
        (fun p hp hne => hzero p (List.mem_cons_of_mem _ hp) hne), Nat.zero_add]

theorem sum_map_pair (g : Nat × Nat × Nat → Nat) :
    ∀ (l : List (Nat × Nat × Nat)) (p0 p1 : Nat × Nat × Nat), l.Nodup →
      p0 ∈ l → p1 ∈ l → p0 ≠ p1 →
      (∀ p ∈ l, p ≠ p0 → p ≠ p1 → g p = 0) → (l.map g).sum = g p0 + g p1 := by
  intro l
  induction l with
  | nil => intro p0 p1 _ h; cases h
  | cons a t ih =>
    intro p0 p1 hnd hm0 hm1 hne hzero
    rw [List.map_cons, List.sum_cons]
    rcases List.mem_cons.mp hm0 with h0 | h0
    · subst h0
      have h1t : p1 ∈ t := by
        rcases List.mem_cons.mp hm1 with h1 | h1
        · exact absurd h1.symm hne
        · exact h1
      rw [sum_map_single g t p1 (List.nodup_cons.mp hnd).2 h1t
        (fun p hp hp1 => hzero p (List.mem_cons_of_mem _ hp)
          (fun he => (List.nodup_cons.mp hnd).1 (he ▸ hp)) hp1)]
    · rcases List.mem_cons.mp hm1 with h1 | h1
      · subst h1
        rw [sum_map_single g t p0 (List.nodup_cons.mp hnd).2 h0
          (fun p hp hp0 => hzero p (List.mem_cons_of_mem _ hp) hp0
            (fun he => (List.nodup_cons.mp hnd).1 (he ▸ hp)))]
        omega
      · have ha0 : g a = 0 := hzero a (List.mem_cons_self _ _)
          (fun he => (List.nodup_cons.mp hnd).1 (he ▸ h0))
          (fun he => (List.nodup_cons.mp hnd).1 (he ▸ h1))
        rw [ha0, ih p0 p1 (List.nodup_cons.mp hnd).2 h0 h1 hne
          (fun p hp h0' h1' => hzero p (List.mem_cons_of_mem _ hp) h0' h1'), Nat.zero_add]

theorem face_list_length (c : Chunk) :
    c.face_list.length
      = (coords3.map fun p => (c.emitted_dirs p.1 p.2.1 p.2.2).length).sum := by
  unfold Chunk.face_list
  rw [List.length_flatMap]
  congr 1
  apply List.map_congr_left
  intro p _
  simp [List.length_map]

theorem generate_face_vertices_length (b : Block) (f : Face) :
    (b.generate_face f).vertices.length = 4 := by
  cases f <;> rfl

theorem face_list_quads (c : Chunk) :
    ∀ q ∈ c.face_list, q.vertices.length = 4 := by
  intro q hq
  unfold Chunk.face_list at hq
  rw [List.mem_flatMap] at hq
  obtain ⟨p, _, hq⟩ := hq
  rw [List.mem_map] at hq
  obtain ⟨f, _, rfl⟩ := hq
  exact generate_face_vertices_length _ _

theorem add_face_vertices (m : TerrainMesh) (q : BlockQuad) :
    (m.add_face q).vertices = m.vertices ++ q.vertices := rfl

theorem add_face_indices (m : TerrainMesh) (q : BlockQuad) :
    (m.add_face q).indices = m.indices ++
      [(m.vertices.length % U32_MOD + 0) % U32_MOD,
       (m.vertices.length % U32_MOD + 1) % U32_MOD,
       (m.vertices.length % U32_MOD + 2) % U32_MOD,
       (m.vertices.length % U32_MOD + 0) % U32_MOD,
       (m.vertices.length % U32_MOD + 2) % U32_MOD,
       (m.vertices.length % U32_MOD + 3) % U32_MOD] := rfl

theorem add_face_foldl_char :
    ∀ (qs : List BlockQuad) (m : TerrainMesh),
      (∀ q ∈ qs, q.vertices.length = 4) →
      m.vertices.length + 4 * qs.length ≤ U32_MOD →
      (∀ i ∈ m.indices, i < m.vertices.length) →
      ((qs.foldl TerrainMesh.add_face m).vertices.length
          = m.vertices.length + 4 * qs.length
       ∧ (qs.foldl TerrainMesh.add_face m).indices.length
          = m.indices.length + 6 * qs.length
       ∧ ∀ i ∈ (qs.foldl TerrainMesh.add_face m).indices,
           i < (qs.foldl TerrainMesh.add_face m).vertices.length) := by
  intro qs
  induction qs with
  | nil =>
    intro m _ _ hvalid
    refine ⟨by simp, by simp, by simpa using hvalid⟩
  | cons q t ih =>
    intro m hlen4 hbound hvalid
    have hq4 := hlen4 q (List.mem_cons_self _ _)
    have htlen : t.length + 1 = (q :: t).length := rfl
    have hmlt : m.vertices.length + 3 < U32_MOD := by
      rw [← htlen] at hbound
      omega
    have hmod : m.vertices.length % U32_MOD = m.vertices.length :=
      Nat.mod_eq_of_lt (by omega)
    have hvlen : (m.add_face q).vertices.length = m.vertices.length + 4 := by
      rw [add_face_vertices, List.length_append, hq4]
    have hilen : (m.add_face q).indices.length = m.indices.length + 6 := by
      rw [add_face_indices, List.length_append]
      rfl
    have hival : ∀ i ∈ (m.add_face q).indices, i < (m.add_face q).vertices.length := by
      intro i hi
      rw [add_face_indices, List.mem_append] at hi
      rw [hvlen]
      rcases hi with hi | hi
      · have := hvalid i hi
        omega
      · rw [hmod] at hi
        have h0 : (m.vertices.length + 0) % U32_MOD = m.vertices.length + 0 :=
          Nat.mod_eq_of_lt (by omega)
        have h1 : (m.vertices.length + 1) % U32_MOD = m.vertices.length + 1 :=
          Nat.mod_eq_of_lt (by omega)
        have h2 : (m.vertices.length + 2) % U32_MOD = m.vertices.length + 2 :=
          Nat.mod_eq_of_lt (by omega)
        have h3 : (m.vertices.length + 3) % U32_MOD = m.vertices.length + 3 :=
          Nat.mod_eq_of_lt (by omega)
        rw [h0, h1, h2, h3] at hi
        simp only [List.mem_cons, List.not_mem_nil, or_false] at hi
        omega
    obtain ⟨hv, hi, hb⟩ := ih (m.add_face q)
      (fun q2 hq2 => hlen4 q2 (List.mem_cons_of_mem _ hq2))
      (by rw [hvlen]; rw [← htlen] at hbound; omega)
      hival
    rw [List.foldl_cons]
    refine ⟨?_, ?_, hb⟩
    · rw [hv, hvlen, ← htlen]
      ring
    · rw [hi, hilen, ← htlen]
      ring

theorem emitted_dirs_air (c : Chunk) (x y z : Nat)
    (h : (c.blocks x y z).is_air = true) :
    c.emitted_dirs x y z = [] := by
  unfold Chunk.emitted_dirs
  rw [h]
  rfl

theorem emitted_dirs_length_formula (c : Chunk) (x y z : Nat)
    (hsolid : (c.blocks x y z).is_air = false) :
    (c.emitted_dirs x y z).length =
      (if c.should_render_face ((x : Int) - 1) (y : Int) (z : Int) then 1 else 0)
      + (if c.should_render_face ((x : Int) + 1) (y : Int) (z : Int) then 1 else 0)
      + (if c.should_render_face (x : Int) ((y : Int) - 1) (z : Int) then 1 else 0)
      + (if c.should_render_face (x : Int) ((y : Int) + 1) (z : Int) then 1 else 0)
      + (if c.should_render_face (x : Int) (y : Int) ((z : Int) - 1) then 1 else 0)
      + (if c.should_render_face (x : Int) (y : Int) ((z : Int) + 1) then 1 else 0) := by
  unfold Chunk.emitted_dirs
  rw [hsolid]
  simp only [Bool.false_eq_true, if_false, List.length_append,
    apply_ite List.length, List.length_singleton, List.length_nil]

theorem srf_true_of_each (c : Chunk) (nx ny nz : Int)
    (h : ∀ a b d : Nat, (a : Int) = nx → (b : Int) = ny → (d : Int) = nz →
      a < 32 → b < 32 → d < 32 → (c.blocks a b d).is_air = true) :
    c.should_render_face nx ny nz = true := by
  unfold Chunk.should_render_face
  split_ifs with hoob
  · rfl
  · push_neg at hoob
    have hW : ((CHUNK_WIDTH : Nat) : Int) = 32 := rfl
    have hH : ((CHUNK_HEIGHT : Nat) : Int) = 32 := rfl
    have hD : ((CHUNK_DEPTH : Nat) : Int) = 32 := rfl
    rw [hW, hH, hD] at hoob
    exact h nx.toNat ny.toNat nz.toNat (by omega) (by omega) (by omega)
      (by omega) (by omega) (by omega)

theorem srf_false_of_solid (c : Chunk) (a b d : Nat)
    (ha : a < 32) (hb : b < 32) (hd : d < 32)
    (hsolid : (c.blocks a b d).is_air = false) :
    c.should_render_face (a : Int) (b : Int) (d : Int) = false := by
  unfold Chunk.should_render_face
  rw [if_neg]
  · rw [Int.toNat_natCast, Int.toNat_natCast, Int.toNat_natCast]
    exact hsolid
  · have hW : ((CHUNK_WIDTH : Nat) : Int) = 32 := rfl
    have hH : ((CHUNK_HEIGHT : Nat) : Int) = 32 := rfl
    have hD : ((CHUNK_DEPTH : Nat) : Int) = 32 := rfl
    rw [hW, hH, hD]
    omega

theorem srf_true_of_uniq (c : Chunk) (x0 y0 z0 : Nat)
    (huniq : ∀ a b d, a < 32 → b < 32 → d < 32 →
      (c.blocks a b d).is_air = false → (a, b, d) = (x0, y0, z0))
    (nx ny nz : Int)
    (hne : ¬(nx = (x0 : Int) ∧ ny = (y0 : Int) ∧ nz = (z0 : Int))) :
    c.should_render_face nx ny nz = true := by
  apply srf_true_of_each
  intro a b d ha hb hd ha32 hb32 hd32
  by_contra hfalse
  rw [Bool.not_eq_true] at hfalse
  have heq := huniq a b d ha32 hb32 hd32 hfalse
  rw [Prod.mk.injEq, Prod.mk.injEq] at heq
  exact hne ⟨by omega, by omega, by omega⟩

theorem srf_true_of_pair (c : Chunk) (x0 y0 z0 x1 y1 z1 : Nat)
    (hpair : ∀ a b d, a < 32 → b < 32 → d < 32 →
      (c.blocks a b d).is_air = false →
      (a, b, d) = (x0, y0, z0) ∨ (a, b, d) = (x1, y1, z1))
    (nx ny nz : Int)
    (hne0 : ¬(nx = (x0 : Int) ∧ ny = (y0 : Int) ∧ nz = (z0 : Int)))
    (hne1 : ¬(nx = (x1 : Int) ∧ ny = (y1 : Int) ∧ nz = (z1 : Int))) :
    c.should_render_face nx ny nz = true := by
  apply srf_true_of_each
  intro a b d ha hb hd ha32 hb32 hd32
  by_contra hfalse
  rw [Bool.not_eq_true] at hfalse
  rcases hpair a b d ha32 hb32 hd32 hfalse with heq | heq <;>
    rw [Prod.mk.injEq, Prod.mk.injEq] at heq
  · exact hne0 ⟨by omega, by omega, by omega⟩
  · exact hne1 ⟨by omega, by omega, by omega⟩

/-- C5: a chunk whose grid has exactly one non-Air voxel (so every
in-bounds neighbor of it is Air) meshes into exactly 6 faces: 24
vertices and 36 indices, every index below 24. -/
theorem C5_isolated_voxel (c : Chunk) (x0 y0 z0 : Nat)
    (hx : x0 < 32) (hy : y0 < 32) (hz : z0 < 32)
    (hsolid : (c.blocks x0 y0 z0).is_air = false)
    (huniq : ∀ a b d, a < 32 → b < 32 → d < 32 →
      (c.blocks a b d).is_air = false → (a, b, d) = (x0, y0, z0)) :
    c.generate_mesh.mesh.vertices.length = 24
    ∧ c.generate_mesh.mesh.indices.length = 36
    ∧ ∀ i ∈ c.generate_mesh.mesh.indices, i < 24 := by
  have h6 : (c.emitted_dirs x0 y0 z0).length = 6 := by
    rw [emitted_dirs_length_formula c x0 y0 z0 hsolid]
    rw [srf_true_of_uniq c x0 y0 z0 huniq ((x0 : Int) - 1) (y0 : Int) (z0 : Int) (by omega)]
    rw [srf_true_of_uniq c x0 y0 z0 huniq ((x0 : Int) + 1) (y0 : Int) (z0 : Int) (by omega)]
    rw [srf_true_of_uniq c x0 y0 z0 huniq (x0 : Int) ((y0 : Int) - 1) (z0 : Int) (by omega)]
    rw [srf_true_of_uniq c x0 y0 z0 huniq (x0 : Int) ((y0 : Int) + 1) (z0 : Int) (by omega)]
    rw [srf_true_of_uniq c x0 y0 z0 huniq (x0 : Int) (y0 : Int) ((z0 : Int) - 1) (by omega)]
    rw [srf_true_of_uniq c x0 y0 z0 huniq (x0 : Int) (y0 : Int) ((z0 : Int) + 1) (by omega)]
    norm_num
  have hzero : ∀ p ∈ coords3, p ≠ ((x0, y0, z0) : Nat × Nat × Nat) →
      (c.emitted_dirs p.1 p.2.1 p.2.2).length = 0 := by
    intro p hp hne
    obtain ⟨a, b, d⟩ := p
    rw [mem_coords3] at hp
    by_cases hair : (c.blocks a b d).is_air = true
    · rw [emitted_dirs_air c a b d hair]
      rfl
    · rw [Bool.not_eq_true] at hair
      exact absurd (huniq a b d hp.1 hp.2.1 hp.2.2 hair) hne
  have hfl : c.face_list.length = 6 := by
    rw [face_list_length]
    rw [sum_map_single (fun p => (c.emitted_dirs p.1 p.2.1 p.2.2).length) coords3
      (x0, y0, z0) nodup_coords3 ((mem_coords3 x0 y0 z0).mpr ⟨hx, hy, hz⟩) hzero]
    exact h6
  have hmesh : c.generate_mesh.mesh
      = c.face_list.foldl TerrainMesh.add_face TerrainMesh.new := rfl
  obtain ⟨hv, hi, hb⟩ := add_face_foldl_char c.face_list TerrainMesh.new
    (face_list_quads c)
    (by rw [hfl]; norm_num [TerrainMesh.new, U32_MOD])
    (by intro i hi; simp [TerrainMesh.new] at hi)
  have hnew0 : TerrainMesh.new.vertices.length = 0 := rfl
  have hnewi : TerrainMesh.new.indices.length = 0 := rfl
  rw [hmesh]
  refine ⟨?_, ?_, ?_⟩
  · rw [hv, hfl, hnew0]
  · rw [hi, hfl, hnewi]
  · intro i him
    have hlt := hb i him
    rw [hv, hfl, hnew0] at hlt
    omega

/-- The grid of the chunk used as a concrete instance for the isolated
voxel theorem: a single Stone voxel at (5,5,5). -/
def c5_chunk : Chunk :=
  { position := (0, 0, 0)
    blocks := fun a b d =>
      if a = 5 ∧ b = 5 ∧ d = 5 then Block.new BlockType.Stone (0, 0, 0)
      else Block.new BlockType.Air (0, 0, 0)
    mesh := TerrainMesh.new }

theorem C5_witness :
    c5_chunk.generate_mesh.mesh.vertices.length = 24
    ∧ c5_chunk.generate_mesh.mesh.indices.length = 36 := by
  have h := C5_isolated_voxel c5_chunk 5 5 5 (by norm_num) (by norm_num) (by norm_num)
    (by decide)
    (by
      intro a b d ha hb hd hsolid2
      by_contra hne
      have hcond : ¬(a = 5 ∧ b = 5 ∧ d = 5) := by
        intro hc
        exact hne (by rw [hc.1, hc.2.1, hc.2.2])
      have hairb : c5_chunk.blocks a b d = Block.new BlockType.Air (0, 0, 0) := by
        show (if a = 5 ∧ b = 5 ∧ d = 5
          then Block.new BlockType.Stone (0, 0, 0)
          else Block.new BlockType.Air (0, 0, 0)) = _
        rw [if_neg hcond]
      rw [hairb] at hsolid2
      exact absurd hsolid2 (by decide))
  exact ⟨h.1, h.2.1⟩

theorem mesh_counts_pair (c : Chunk) (x0 y0 z0 x1 y1 z1 : Nat)
    (h0x : x0 < 32) (h0y : y0 < 32) (h0z : z0 < 32)
    (h1x : x1 < 32) (h1y : y1 < 32) (h1z : z1 < 32)
    (hne01 : ((x0, y0, z0) : Nat × Nat × Nat) ≠ (x1, y1, z1))
    (hpair : ∀ a b d, a < 32 → b < 32 → d < 32 →
      (c.blocks a b d).is_air = false →
      (a, b, d) = (x0, y0, z0) ∨ (a, b, d) = (x1, y1, z1))
    (h5a : (c.emitted_dirs x0 y0 z0).length = 5)
    (h5b : (c.emitted_dirs x1 y1 z1).length = 5) :
    c.generate_mesh.mesh.vertices.length = 40
    ∧ c.generate_mesh.mesh.indices.length = 60
    ∧ ∀ i ∈ c.generate_mesh.mesh.indices, i < 40 := by
  have hzero : ∀ p ∈ coords3, p ≠ ((x0, y0, z0) : Nat × Nat × Nat) →
      p ≠ ((x1, y1, z1) : Nat × Nat × Nat) →
      (c.emitted_dirs p.1 p.2.1 p.2.2).length = 0 := by
    intro p hp hne0 hne1
    obtain ⟨a, b, d⟩ := p
    rw [mem_coords3] at hp
    by_cases hair : (c.blocks a b d).is_air = true
    · rw [emitted_dirs_air c a b d hair]
      rfl
    · rw [Bool.not_eq_true] at hair
      rcases hpair a b d hp.1 hp.2.1 hp.2.2 hair with heq | heq
      · exact absurd heq hne0
      · exact absurd heq hne1
  have hfl : c.face_list.length = 10 := by
    rw [face_list_length]
    rw [sum_map_pair (fun p => (c.emitted_dirs p.1 p.2.1 p.2.2).length) coords3
      (x0, y0, z0) (x1, y1, z1) nodup_coords3
      ((mem_coords3 x0 y0 z0).mpr ⟨h0x, h0y, h0z⟩)
      ((mem_coords3 x1 y1 z1).mpr ⟨h1x, h1y, h1z⟩) hne01 hzero]
    show (c.emitted_dirs x0 y0 z0).length + (c.emitted_dirs x1 y1 z1).length = 10
    rw [h5a, h5b]
  have hmesh : c.generate_mesh.mesh
      = c.face_list.foldl TerrainMesh.add_face TerrainMesh.new := rfl
  obtain ⟨hv, hi, hb⟩ := add_face_foldl_char c.face_list TerrainMesh.new
    (face_list_quads c)
    (by rw [hfl]; norm_num [TerrainMesh.new, U32_MOD])
    (by intro i hi; simp [TerrainMesh.new] at hi)
  have hnew0 : TerrainMesh.new.vertices.length = 0 := rfl
  have hnewi : TerrainMesh.new.indices.length = 0 := rfl
  rw [hmesh]
  refine ⟨?_, ?_, ?_⟩
  · rw [hv, hfl, hnew0]
  · rw [hi, hfl, hnewi]
  · intro i him
    have hlt := hb i him
    rw [hv, hfl, hnew0] at hlt
    omega

/-- C6: a chunk whose grid has exactly two non-Air voxels adjacent along
one axis (everything else Air) meshes into exactly 10 quads: 40 vertices
and 60 indices (the two mutually facing faces are occluded), and every
index is below 40. -/
theorem C6_adjacent_voxels (c : Chunk) (x0 y0 z0 x1 y1 z1 : Nat)
    (h0x : x0 < 32) (h0y : y0 < 32) (h0z : z0 < 32)
    (h1x : x1 < 32) (h1y : y1 < 32) (h1z : z1 < 32)
    (hs0 : (c.blocks x0 y0 z0).is_air = false)
    (hs1 : (c.blocks x1 y1 z1).is_air = false)
    (hadj : (x1 = x0 + 1 ∧ y1 = y0 ∧ z1 = z0)
          ∨ (x1 = x0 ∧ y1 = y0 + 1 ∧ z1 = z0)
          ∨ (x1 = x0 ∧ y1 = y0 ∧ z1 = z0 + 1))
    (hpair : ∀ a b d, a < 32 → b < 32 → d < 32 →
      (c.blocks a b d).is_air = false →
      (a, b, d) = (x0, y0, z0) ∨ (a, b, d) = (x1, y1, z1)) :
    c.generate_mesh.mesh.vertices.length = 40
    ∧ c.generate_mesh.mesh.indices.length = 60
    ∧ ∀ i ∈ c.generate_mesh.mesh.indices, i < 40 := by
  rcases hadj with ⟨ha1, ha2, ha3⟩ | ⟨ha1, ha2, ha3⟩ | ⟨ha1, ha2, ha3⟩
  · -- adjacent along x: the second voxel is (x0 + 1, y0, z0)
    subst ha1
    replace ha2 := ha2.symm
    subst ha2
    replace ha3 := ha3.symm
    subst ha3
    have hcast1 : ((x0 + 1 : Nat) : Int) = (x0 : Int) + 1 := by push_cast; ring
    have hcast2 : ((x0 + 1 : Nat) : Int) - 1 = (x0 : Int) := by push_cast; ring
    have h5a : (c.emitted_dirs x0 y0 z0).length = 5 := by
      rw [emitted_dirs_length_formula c x0 y0 z0 hs0]
      have hfr := srf_false_of_solid c (x0 + 1) y0 z0 h1x h1y h1z hs1
      rw [hcast1] at hfr
      rw [hfr]
      rw [srf_true_of_pair c x0 y0 z0 (x0 + 1) y0 z0 hpair
        ((x0 : Int) - 1) (y0 : Int) (z0 : Int) (by omega) (by push_cast; omega)]
      rw [srf_true_of_pair c x0 y0 z0 (x0 + 1) y0 z0 hpair
        (x0 : Int) ((y0 : Int) - 1) (z0 : Int) (by omega) (by push_cast; omega)]
      rw [srf_true_of_pair c x0 y0 z0 (x0 + 1) y0 z0 hpair
        (x0 : Int) ((y0 : Int) + 1) (z0 : Int) (by omega) (by push_cast; omega)]
      rw [srf_true_of_pair c x0 y0 z0 (x0 + 1) y0 z0 hpair
        (x0 : Int) (y0 : Int) ((z0 : Int) - 1) (by omega) (by push_cast; omega)]
      rw [srf_true_of_pair c x0 y0 z0 (x0 + 1) y0 z0 hpair
        (x0 : Int) (y0 : Int) ((z0 : Int) + 1) (by omega) (by push_cast; omega)]
      norm_num
    have h5b : (c.emitted_dirs (x0 + 1) y0 z0).length = 5 := by
      rw [emitted_dirs_length_formula c (x0 + 1) y0 z0 hs1]
      have hfr := srf_false_of_solid c x0 y0 z0 h0x h0y h0z hs0
      rw [hcast2]
      rw [hfr]
      rw [srf_true_of_pair c x0 y0 z0 (x0 + 1) y0 z0 hpair
        (((x0 + 1 : Nat) : Int) + 1) (y0 : Int) (z0 : Int)
        (by push_cast; omega) (by push_cast; omega)]
      rw [srf_true_of_pair c x0 y0 z0 (x0 + 1) y0 z0 hpair
        ((x0 + 1 : Nat) : Int) ((y0 : Int) - 1) (z0 : Int)
        (by push_cast; omega) (by push_cast; omega)]
      rw [srf_true_of_pair c x0 y0 z0 (x0 + 1) y0 z0 hpair
        ((x0 + 1 : Nat) : Int) ((y0 : Int) + 1) (z0 : Int)
        (by push_cast; omega) (by push_cast; omega)]
      rw [srf_true_of_pair c x0 y0 z0 (x0 + 1) y0 z0 hpair
        ((x0 + 1 : Nat) : Int) (y0 : Int) ((z0 : Int) - 1)
        (by push_cast; omega) (by push_cast; omega)]
      rw [srf_true_of_pair c x0 y0 z0 (x0 + 1) y0 z0 hpair
        ((x0 + 1 : Nat) : Int) (y0 : Int) ((z0 : Int) + 1)
        (by push_cast; omega) (by push_cast; omega)]
      norm_num
    exact mesh_counts_pair c x0 y0 z0 (x0 + 1) y0 z0 h0x h0y h0z h1x h1y h1z
      (by intro h; rw [Prod.mk.injEq, Prod.mk.injEq] at h; omega) hpair h5a h5b
  · -- adjacent along y: the second voxel is (x0, y0 + 1, z0)
    replace ha1 := ha1.symm
    subst ha1
    subst ha2
    replace ha3 := ha3.symm
    subst ha3
    have hcast1 : ((y0 + 1 : Nat) : Int) = (y0 : Int) + 1 := by push_cast; ring
    have hcast2 : ((y0 + 1 : Nat) : Int) - 1 = (y0 : Int) := by push_cast; ring
    have h5a : (c.emitted_dirs x0 y0 z0).length = 5 := by
      rw [emitted_dirs_length_formula c x0 y0 z0 hs0]
      have hfr := srf_false_of_solid c x0 (y0 + 1) z0 h1x h1y h1z hs1
      rw [hcast1] at hfr
      rw [hfr]
      rw [srf_true_of_pair c x0 y0 z0 x0 (y0 + 1) z0 hpair
        ((x0 : Int) - 1) (y0 : Int) (z0 : Int) (by omega) (by push_cast; omega)]
      rw [srf_true_of_pair c x0 y0 z0 x0 (y0 + 1) z0 hpair
        ((x0 : Int) + 1) (y0 : Int) (z0 : Int) (by omega) (by push_cast; omega)]
      rw [srf_true_of_pair c x0 y0 z0 x0 (y0 + 1) z0 hpair
        (x0 : Int) ((y0 : Int) - 1) (z0 : Int) (by omega) (by push_cast; omega)]
      rw [srf_true_of_pair c x0 y0 z0 x0 (y0 + 1) z0 hpair
        (x0 : Int) (y0 : Int) ((z0 : Int) - 1) (by omega) (by push_cast; omega)]
      rw [srf_true_of_pair c x0 y0 z0 x0 (y0 + 1) z0 hpair
        (x0 : Int) (y0 : Int) ((z0 : Int) + 1) (by omega) (by push_cast; omega)]
      norm_num
    have h5b : (c.emitted_dirs x0 (y0 + 1) z0).length = 5 := by
      rw [emitted_dirs_length_formula c x0 (y0 + 1) z0 hs1]
      have hfr := srf_false_of_solid c x0 y0 z0 h0x h0y h0z hs0
      rw [hcast2]
      rw [hfr]
      rw [srf_true_of_pair c x0 y0 z0 x0 (y0 + 1) z0 hpair
        ((x0 : Int) - 1) ((y0 + 1 : Nat) : Int) (z0 : Int)
        (by push_cast; omega) (by push_cast; omega)]
      rw [srf_true_of_pair c x0 y0 z0 x0 (y0 + 1) z0 hpair
        ((x0 : Int) + 1) ((y0 + 1 : Nat) : Int) (z0 : Int)
        (by push_cast; omega) (by push_cast; omega)]
      rw [srf_true_of_pair c x0 y0 z0 x0 (y0 + 1) z0 hpair
        (x0 : Int) (((y0 + 1 : Nat) : Int) + 1) (z0 : Int)
        (by push_cast; omega) (by push_cast; omega)]
      rw [srf_true_of_pair c x0 y0 z0 x0 (y0 + 1) z0 hpair
        (x0 : Int) ((y0 + 1 : Nat) : Int) ((z0 : Int) - 1)
        (by push_cast; omega) (by push_cast; omega)]
      rw [srf_true_of_pair c x0 y0 z0 x0 (y0 + 1) z0 hpair
        (x0 : Int) ((y0 + 1 : Nat) : Int) ((z0 : Int) + 1)
        (by push_cast; omega) (by push_cast; omega)]
      norm_num
    exact mesh_counts_pair c x0 y0 z0 x0 (y0 + 1) z0 h0x h0y h0z h1x h1y h1z
      (by intro h; rw [Prod.mk.injEq, Prod.mk.injEq] at h; omega) hpair h5a h5b
  · -- adjacent along z: the second voxel is (x0, y0, z0 + 1)
    replace ha1 := ha1.symm
    subst ha1
    replace ha2 := ha2.symm
    subst ha2
    subst ha3
    have hcast1 : ((z0 + 1 : Nat) : Int) = (z0 : Int) + 1 := by push_cast; ring
    have hcast2 : ((z0 + 1 : Nat) : Int) - 1 = (z0 : Int) := by push_cast; ring
    have h5a : (c.emitted_dirs x0 y0 z0).length = 5 := by
      rw [emitted_dirs_length_formula c x0 y0 z0 hs0]
      have hfr := srf_false_of_solid c x0 y0 (z0 + 1) h1x h1y h1z hs1
      rw [hcast1] at hfr
      rw [hfr]
      rw [srf_true_of_pair c x0 y0 z0 x0 y0 (z0 + 1) hpair
        ((x0 : Int) - 1) (y0 : Int) (z0 : Int) (by omega) (by push_cast; omega)]
      rw [srf_true_of_pair c x0 y0 z0 x0 y0 (z0 + 1) hpair
        ((x0 : Int) + 1) (y0 : Int) (z0 : Int) (by omega) (by push_cast; omega)]
      rw [srf_true_of_pair c x0 y0 z0 x0 y0 (z0 + 1) hpair
        (x0 : Int) ((y0 : Int) - 1) (z0 : Int) (by omega) (by push_cast; omega)]
      rw [srf_true_of_pair c x0 y0 z0 x0 y0 (z0 + 1) hpair
        (x0 : Int) ((y0 : Int) + 1) (z0 : Int) (by omega) (by push_cast; omega)]
      rw [srf_true_of_pair c x0 y0 z0 x0 y0 (z0 + 1) hpair
        (x0 : Int) (y0 : Int) ((z0 : Int) - 1) (by omega) (by push_cast; omega)]
      norm_num
    have h5b : (c.emitted_dirs x0 y0 (z0 + 1)).length = 5 := by
      rw [emitted_dirs_length_formula c x0 y0 (z0 + 1) hs1]
      have hfr := srf_false_of_solid c x0 y0 z0 h0x h0y h0z hs0
      rw [hcast2]
      rw [hfr]
      rw [srf_true_of_pair c x0 y0 z0 x0 y0 (z0 + 1) hpair
        ((x0 : Int) - 1) (y0 : Int) ((z0 + 1 : Nat) : Int)
        (by push_cast; omega) (by push_cast; omega)]
      rw [srf_true_of_pair c x0 y0 z0 x0 y0 (z0 + 1) hpair
        ((x0 : Int) + 1) (y0 : Int) ((z0 + 1 : Nat) : Int)
        (by push_cast; omega) (by push_cast; omega)]
      rw [srf_true_of_pair c x0 y0 z0 x0 y0 (z0 + 1) hpair
        (x0 : Int) ((y0 : Int) - 1) ((z0 + 1 : Nat) : Int)
        (by push_cast; omega) (by push_cast; omega)]
      rw [srf_true_of_pair c x0 y0 z0 x0 y0 (z0 + 1) hpair
        (x0 : Int) ((y0 : Int) + 1) ((z0 + 1 : Nat) : Int)
        (by push_cast; omega) (by push_cast; omega)]
      rw [srf_true_of_pair c x0 y0 z0 x0 y0 (z0 + 1) hpair
        (x0 : Int) (y0 : Int) (((z0 + 1 : Nat) : Int) + 1)
        (by push_cast; omega) (by push_cast; omega)]
      norm_num
    exact mesh_counts_pair c x0 y0 z0 x0 y0 (z0 + 1) h0x h0y h0z h1x h1y h1z
      (by intro h; rw [Prod.mk.injEq, Prod.mk.injEq] at h; omega) hpair h5a h5b

/-- The grid of the chunk used as a concrete instance for the adjacent
voxel theorem: Stone voxels at (5,5,5) and (6,5,5). -/
def c6_chunk : Chunk :=
  { position := (0, 0, 0)
    blocks := fun a b d =>
      if (a = 5 ∨ a = 6) ∧ b = 5 ∧ d = 5 then Block.new BlockType.Stone (0, 0, 0)
      else Block.new BlockType.Air (0, 0, 0)
    mesh := TerrainMesh.new }

theorem C6_witness :
    c6_chunk.generate_mesh.mesh.vertices.length = 40
    ∧ c6_chunk.generate_mesh.mesh.indices.length = 60 := by
  have h := C6_adjacent_voxels c6_chunk 5 5 5 6 5 5
    (by norm_num) (by norm_num) (by norm_num)
    (by norm_num) (by norm_num) (by norm_num)
    (by decide) (by decide)
    (Or.inl ⟨rfl, rfl, rfl⟩)
    (by
      intro a b d ha hb hd hsolid2
      by_cases hcond : (a = 5 ∨ a = 6) ∧ b = 5 ∧ d = 5
      · obtain ⟨ha56, hb5, hd5⟩ := hcond
        subst hb5
        subst hd5
        rcases ha56 with rfl | rfl
        · exact Or.inl rfl
        · exact Or.inr rfl
      · exfalso
        have hairb : c6_chunk.blocks a b d = Block.new BlockType.Air (0, 0, 0) := by
          show (if (a = 5 ∨ a = 6) ∧ b = 5 ∧ d = 5
            then Block.new BlockType.Stone (0, 0, 0)
            else Block.new BlockType.Air (0, 0, 0)) = _
          rw [if_neg hcond]
        rw [hairb] at hsolid2
        exact absurd hsolid2 (by decide))
  exact ⟨h.1, h.2.1⟩

end Craft
